import Mathlib

/-!
Verification of the core image-processing kernels of the OM (OnDA Monitor)
repository against its natural-language specification.

The C++ sources are shallowly embedded: float values are modelled as exact
rationals (`ℚ`), flat C arrays as `List`s accessed through a total default-0
accessor, machine loops as folds or fuel-indexed recursions that mirror the
loop structure of the source.  Calls to `sqrt`, `acos`, `cos`, `sin` (whose
values never influence the verified properties) are passed in as explicit
function parameters of the model.
-/

namespace OM

/-- `FLT_MAX` of IEEE-754 binary32, as an exact rational: `(2 - 2^-23)·2^127`. -/
def FLT_MAX_Q : ℚ := 2 ^ 128 - 2 ^ 104

/-- Total accessor for a flat C array of floats: `l[i]`, 0 out of range. -/
def qget (l : List ℚ) (i : ℕ) : ℚ := l.getD i 0

/-- Total accessor for a flat C array of integers: `l[i]`, 0 out of range. -/
def nget (l : List ℕ) (i : ℕ) : ℕ := l.getD i 0

/-- Floor of a rational, written out computably (`den` is positive, so
floor division of `num` by `den` is the floor). -/
def ratFloor (q : ℚ) : ℤ := Int.fdiv q.num q.den

/-- The C `rint` under the default rounding mode: round to nearest, ties to
even. -/
def rintQ (q : ℚ) : ℤ :=
  let f := ratFloor q
  let r := q - (f : ℚ)
  if r < 1 / 2 then f
  else if 1 / 2 < r then f + 1
  else if f % 2 = 0 then f else f + 1

/-! ### C2 component: mask utilities (`mask.cpp`)

A float datum is modelled with its IEEE class so that `isfinite` is
meaningful: finite values carry an exact rational, the non-finite classes
are atoms. -/

/-- A binary32 value as used by the mask utilities: a finite value (exact
rational payload) or one of the non-finite classes. -/
inductive FloatV where
  | val (q : ℚ)
  | posInf
  | negInf
  | nan
deriving DecidableEq, Repr

/-- The C `isfinite` classifier on the modelled float values. -/
def FloatV.isfinite : FloatV → Bool
  | FloatV.val _ => true
  | _ => false

/-- Embedding of `mergeMaskIntoData` (mask.cpp lines 15-26): write the
sentinel `-FLT_MAX` into `data` wherever the dense mask is non-zero. -/
def mergeMaskIntoData (data : List FloatV) (mask : List ℕ) : List FloatV :=
  List.zipWith (fun d m => if m ≠ 0 then FloatV.val (-FLT_MAX_Q) else d) data mask

/-- Embedding of `getMaskFromMergedMaskInData` (mask.cpp lines 90-101):
rebuild a dense mask from a data array, marking a pixel good (0) exactly
when `isfinite(data[i])` holds, else bad (1). -/
def getMaskFromMergedMaskInData (data : List FloatV) : List ℕ :=
  data.map (fun d => if d.isfinite then 0 else 1)

/-! ### C5 component, radial statistics (`peakfinder8.cpp`)

The state mirrors `struct radial_stats`: per-radial-bin accumulators
`roffset` (Σ), `rsigma` (Σ²), `rcount` (N) and the per-bin threshold. -/

/-- The mutable per-bin state of `struct radial_stats` in peakfinder8.cpp. -/
structure RadialState where
  roffset : List ℚ
  rsigma : List ℚ
  rthreshold : List ℚ
  rcount : List ℕ
deriving DecidableEq, Repr

/-- Embedding of `update_radial_stats` (peakfinder8.cpp lines 113-119). -/
def updateRadialStats (s : RadialState) (value : ℚ) (r : ℕ) : RadialState :=
  { s with
    roffset := s.roffset.set r (qget s.roffset r + value)
    rsigma := s.rsigma.set r (qget s.rsigma r + value * value)
    rcount := s.rcount.set r (nget s.rcount r + 1) }

/-- The radial bin index of pixel `pidx`: `(int) rint(r_map[pidx])`,
as a natural number (the radius maps of the program are non-negative). -/
def radialBinIdx (rMap : List ℚ) (pidx : ℕ) : ℕ := (rintQ (qget rMap pidx)).toNat

/-- The body of the `fill_radial_bins` loop (peakfinder8.cpp lines 193-214)
for one pixel `pidx`: a pixel contributes exactly when `mask[pidx] != 0`
and its value is below the current threshold of its radial bin. -/
def fillRadialBinsStep (data rMap : List ℚ) (mask : List ℕ) (s : RadialState)
    (pidx : ℕ) : RadialState :=
  if nget mask pidx ≠ 0 then
    let r := radialBinIdx rMap pidx
    if qget data pidx < qget s.rthreshold r then
      updateRadialStats s (qget data pidx) r
    else s
  else s

/-- Embedding of `fill_radial_bins` (peakfinder8.cpp lines 177-216): the
double loop over `iss < h`, `ifs < w` visits `pidx = iss*w + ifs`, i.e. the
linear indices `0, …, h*w - 1` in order. -/
def fillRadialBins (w h : ℕ) (data rMap : List ℚ) (mask : List ℕ)
    (s : RadialState) : RadialState :=
  (List.range (h * w)).foldl (fillRadialBinsStep data rMap mask) s

/-- The contribution condition of `fill_radial_bins` for pixel `pidx`
(read off the guards at peakfinder8.cpp lines 199 and 205). -/
def Contributes (data rMap : List ℚ) (mask : List ℕ) (rthreshold : List ℚ)
    (pidx : ℕ) : Prop :=
  nget mask pidx ≠ 0 ∧
    qget data pidx < qget rthreshold (radialBinIdx rMap pidx)

instance (data rMap : List ℚ) (mask : List ℕ) (rthreshold : List ℚ) (pidx : ℕ) :
    Decidable (Contributes data rMap mask rthreshold pidx) := by
  unfold Contributes; infer_instance

/-- Embedding of `compute_r_sigma` (peakfinder8.cpp lines 104-110); the
square root is supplied as the explicit parameter `sqrtQ`. -/
def computeRSigma (sqrtQ : ℚ → ℚ) (s : RadialState) (i : ℕ) : ℚ :=
  sqrtQ (qget s.rsigma i / nget s.rcount i -
    (qget s.roffset i / nget s.rcount i) * (qget s.roffset i / nget s.rcount i))

/-- The body of the `compute_radial_stats` loop (peakfinder8.cpp lines
231-255) for one bin `ri`.  An empty bin (`rcount[ri] == 0`) is assigned
offset 0, sigma 0 and the finite threshold `1e9`; a non-empty bin gets
mean, standard deviation and `max(offset + min_snr·sigma, acd_threshold)`. -/
def computeRadialStatsStep (sqrtQ : ℚ → ℚ) (minSnr acdThreshold : ℚ)
    (s : RadialState) (ri : ℕ) : RadialState :=
  if nget s.rcount ri = 0 then
    { s with
      roffset := s.roffset.set ri 0
      rsigma := s.rsigma.set ri 0
      rthreshold := s.rthreshold.set ri (10 ^ 9) }
  else
    let thisOffset := qget s.roffset ri / nget s.rcount ri
    let thisSigma := computeRSigma sqrtQ s ri
    let thr := thisOffset + minSnr * thisSigma
    { s with
      roffset := s.roffset.set ri thisOffset
      rsigma := s.rsigma.set ri thisSigma
      rthreshold := s.rthreshold.set ri
        (if thr < acdThreshold then acdThreshold else thr) }

/-- Embedding of `compute_radial_stats` (peakfinder8.cpp lines 219-257). -/
def computeRadialStats (sqrtQ : ℚ → ℚ) (numRadBins : ℕ) (minSnr acdThreshold : ℚ)
    (s : RadialState) : RadialState :=
  (List.range numRadBins).foldl (computeRadialStatsStep sqrtQ minSnr acdThreshold) s

/-- Total accessor for a flat C array of machine integers: `l[i]`, 0 out of
range. -/
def zget (l : List ℤ) (i : ℕ) : ℤ := l.getD i 0

/-! ### C5 component, peak search (`peakfinder8.cpp`)

`struct peakfinder_intern_data` and the flood-fill / ring-search /
reintegration pipeline of `process_panel`.  The C `do/while` loops are
modelled with an explicit fuel parameter; with sufficient fuel the
recursion performs exactly the iterations of the source loops. -/

/-- Embedding of `struct peakfinder_intern_data` (allocated with
`pix_in_peak_map`, `infs`, `inss` of length `data_size` and `peak_pixels`
of length `max_pix_count`, see `allocate_peakfinder_intern_data`,
peakfinder8.cpp lines 365-408). -/
structure PFIntern where
  pixInPeakMap : List ℕ
  infs : List ℤ
  inss : List ℤ
  peakPixels : List ℕ
deriving DecidableEq, Repr

/-- Embedding of `allocate_peakfinder_intern_data` (peakfinder8.cpp lines
365-408): all four arrays are `calloc`ed (zero-initialised), `peak_pixels`
with length `max_pix_count`. -/
def allocatePeakfinderInternData (dataSize maxPixCount : ℕ) : PFIntern :=
  { pixInPeakMap := List.replicate dataSize 0
    infs := List.replicate dataSize 0
    inss := List.replicate dataSize 0
    peakPixels := List.replicate maxPixCount 0 }

/-- The per-panel arguments of `process_panel` (peakfinder8.cpp lines
572-581). -/
structure PanelArgs where
  asicSizeFs : ℕ
  asicSizeSs : ℕ
  numPixFs : ℕ
  aifs : ℕ
  aiss : ℕ
  rthreshold : List ℚ
  roffset : List ℚ
  copy : List ℚ
  rMap : List ℚ
  mask : List ℕ
  minPixCount : ℕ
  maxPixCount : ℕ
  localBgRadius : ℕ
  minSnr : ℚ
  maxNPeaks : ℕ
deriving DecidableEq, Repr

/-- The state local to one flood fill (`peak_search` call chain): the
shared intern data, the running pixel count and the three accumulators. -/
structure FloodState where
  intern : PFIntern
  numPixInPeak : ℕ
  sumComFs : ℚ
  sumComSs : ℚ
  sumI : ℚ
deriving DecidableEq, Repr

/-- The 3×3 search stencil of `peak_search` (peakfinder8.cpp lines
439-440), as (fs offset, ss offset) pairs in loop order. -/
def searchOffsets : List (ℤ × ℤ) :=
  [(0, 0), (-1, -1), (0, -1), (1, -1), (-1, 0), (1, 0), (-1, 1), (0, 1), (1, 1)]

/-- The acceptance condition of `peak_search` for a candidate neighbour at
linear index `pi` (peakfinder8.cpp lines 461-463): above the radial
threshold, not yet in any peak, and `mask[pi] != 0`. -/
def peakSearchAccept (a : PanelArgs) (intern : PFIntern) (pi : ℕ) : Prop :=
  qget a.rthreshold (radialBinIdx a.rMap pi) < qget a.copy pi ∧
    nget intern.pixInPeakMap pi = 0 ∧ nget a.mask pi ≠ 0

instance (a : PanelArgs) (intern : PFIntern) (pi : ℕ) :
    Decidable (peakSearchAccept a intern pi) := by
  unfold peakSearchAccept; infer_instance

/-- The linear image index `pi = curr_fs + curr_ss * num_pix_fs` probed by
one stencil entry of `peak_search` (peakfinder8.cpp lines 454-456). -/
def stencilPix (a : PanelArgs) (p : ℕ) (st : FloodState) (off : ℤ × ℤ) : ℕ :=
  ((zget st.intern.infs p + off.1 + a.aifs * a.asicSizeFs) +
    (zget st.intern.inss p + off.2 + a.aiss * a.asicSizeSs) * a.numPixFs).toNat

/-- The panel-bounds rejection of a stencil entry (peakfinder8.cpp lines
445-452). -/
def outOfPanel (a : PanelArgs) (p : ℕ) (st : FloodState) (off : ℤ × ℤ) : Prop :=
  zget st.intern.infs p + off.1 < 0 ∨
    (a.asicSizeFs : ℤ) ≤ zget st.intern.infs p + off.1 ∨
    zget st.intern.inss p + off.2 < 0 ∨
    (a.asicSizeSs : ℤ) ≤ zget st.intern.inss p + off.2

instance (a : PanelArgs) (p : ℕ) (st : FloodState) (off : ℤ × ℤ) :
    Decidable (outOfPanel a p st off) := by
  unfold outOfPanel; infer_instance

/-- The accepted-pixel update of `peak_search` (peakfinder8.cpp lines
466-481): accumulate the offset-corrected intensity and the
center-of-mass sums, append the panel coordinates, mark the pixel in
`pix_in_peak_map`, store its linear index while below `max_pix_count`,
and increment the count. -/
def acceptPixel (a : PanelArgs) (p : ℕ) (st : FloodState) (off : ℤ × ℤ) :
    FloodState :=
  let nfs := zget st.intern.infs p + off.1
  let nss := zget st.intern.inss p + off.2
  let currFs : ℤ := nfs + a.aifs * a.asicSizeFs
  let currSs : ℤ := nss + a.aiss * a.asicSizeSs
  let pi : ℕ := stencilPix a p st off
  let currI := qget a.copy pi - qget a.roffset (radialBinIdx a.rMap pi)
  { intern :=
      { pixInPeakMap := st.intern.pixInPeakMap.set pi 1
        infs := st.intern.infs.set st.numPixInPeak nfs
        inss := st.intern.inss.set st.numPixInPeak nss
        peakPixels :=
          if st.numPixInPeak < a.maxPixCount then
            st.intern.peakPixels.set st.numPixInPeak pi
          else st.intern.peakPixels }
    numPixInPeak := st.numPixInPeak + 1
    sumComFs := st.sumComFs + currI * (currFs : ℚ)
    sumComSs := st.sumComSs + currI * (currSs : ℚ)
    sumI := st.sumI + currI }

/-- One stencil entry of `peak_search` (peakfinder8.cpp lines 443-483):
panel-bounds check, then the acceptance test; an accepted pixel is
processed by `acceptPixel`. -/
def peakSearchStep (a : PanelArgs) (p : ℕ) (st : FloodState) (off : ℤ × ℤ) :
    FloodState :=
  if outOfPanel a p st off then st
  else if peakSearchAccept a st.intern (stencilPix a p st off) then
    acceptPixel a p st off
  else st

/-- Embedding of one `peak_search` call (peakfinder8.cpp lines 422-484):
the 9-entry stencil around the `p`-th accepted pixel. -/
def peakSearch (a : PanelArgs) (p : ℕ) (st : FloodState) : FloodState :=
  searchOffsets.foldl (peakSearchStep a p) st

/-- The inner flood-fill loop `for (p = 0; p < num_pix_in_peak; p++)`
(peakfinder8.cpp lines 630-645); `num_pix_in_peak` grows while iterating,
so the loop is modelled with fuel. -/
def floodInner (a : PanelArgs) : ℕ → ℕ → FloodState → FloodState
  | 0, _, st => st
  | fuel + 1, p, st =>
      if p < st.numPixInPeak then floodInner a fuel (p + 1) (peakSearch a p st)
      else st

/-- The `do … while (lt_num_pix_in_pk != num_pix_in_peak)` flood-fill loop
(peakfinder8.cpp lines 627-647), with fuel. -/
def floodLoop (a : PanelArgs) : ℕ → FloodState → FloodState
  | 0, st => st
  | fuel + 1, st =>
      let lt := st.numPixInPeak
      let st' := floodInner a (fuel + 1) 0 st
      if lt ≠ st'.numPixInPeak then floodLoop a fuel st' else st'

/-- The square ring of `search_in_ring` (peakfinder8.cpp lines 519-520):
offsets `(fsi, ssj)` with `ssj` the outer loop, both ranging over
`[-ring_width, ring_width)`. -/
def ringOffsets (ringWidth : ℕ) : List (ℤ × ℤ) :=
  (List.range (2 * ringWidth)).flatMap (fun j =>
    (List.range (2 * ringWidth)).map (fun i =>
      ((i : ℤ) - ringWidth, (j : ℤ) - ringWidth)))

/-- Accumulator of `search_in_ring`. -/
structure RingAcc where
  npSigma : ℕ
  sumI : ℚ
  sumISquared : ℚ
  backgroundMaxI : ℚ
deriving DecidableEq, Repr

/-- Embedding of `search_in_ring` (peakfinder8.cpp lines 487-569),
returning `(local_sigma, local_offset, background_max_i)`.  The square
root is the explicit parameter `sqrtQ`; the literal `0.01` of the empty
fallback is the exact rational `1/100`. -/
def searchInRing (sqrtQ : ℚ → ℚ) (a : PanelArgs) (map : List ℕ)
    (comFsInt comSsInt comIdx : ℤ) : ℚ × ℚ × ℚ :=
  let rw : ℕ := 2 * a.localBgRadius
  let acc := (ringOffsets rw).foldl (fun (acc : RingAcc) off =>
    let fsi := off.1
    let ssj := off.2
    if comFsInt + fsi < 0 ∨ (a.asicSizeFs : ℤ) ≤ comFsInt + fsi ∨
        comSsInt + ssj < 0 ∨ (a.asicSizeSs : ℤ) ≤ comSsInt + ssj then acc
    else
      let pixRadius := sqrtQ ((fsi * fsi + ssj * ssj : ℤ) : ℚ)
      if (rw : ℚ) < pixRadius then acc
      else
        let currFs : ℤ := comFsInt + fsi + a.aifs * a.asicSizeFs
        let currSs : ℤ := comSsInt + ssj + a.aiss * a.asicSizeSs
        let pi : ℕ := (currFs + currSs * a.numPixFs).toNat
        let currI := qget a.copy pi
        if qget a.copy pi < qget a.rthreshold (radialBinIdx a.rMap pi) ∧
            nget map pi = 0 ∧ nget a.mask pi ≠ 0 then
          { npSigma := acc.npSigma + 1
            sumI := acc.sumI + currI
            sumISquared := acc.sumISquared + currI * currI
            backgroundMaxI :=
              if acc.backgroundMaxI < currI then currI else acc.backgroundMaxI }
        else acc) ⟨0, 0, 0, 0⟩
  if acc.npSigma ≠ 0 then
    (sqrtQ (acc.sumISquared / acc.npSigma -
        (acc.sumI / acc.npSigma) * (acc.sumI / acc.npSigma)),
      acc.sumI / acc.npSigma, acc.backgroundMaxI)
  else
    let localRadius := (rintQ (qget a.rMap comIdx.toNat)).toNat
    (1 / 100, qget a.roffset localRadius, acc.backgroundMaxI)

/-- The read indices of the reintegration loop
`for (peak_idx = 1; peak_idx < num_pix_in_peak && peak_idx <= max_pix_count;
peak_idx++)` (peakfinder8.cpp lines 692-695): starting at 1 and stopping at
the first index that fails either bound. -/
def reintegrationReadIdxs (numPixInPeak maxPixCount : ℕ) : List ℕ :=
  ((List.range numPixInPeak).drop 1).takeWhile (fun i => i ≤ maxPixCount)

/-- Accumulator of the reintegration pass (peakfinder8.cpp lines 685-725). -/
structure ReAcc where
  peakTotI : ℚ
  pkTotIRaw : ℚ
  peakMaxI : ℚ
  pkMaxIRaw : ℚ
  sumComFs : ℚ
  sumComSs : ℚ
deriving DecidableEq, Repr

/-- One reintegration read (peakfinder8.cpp lines 697-724): re-read the
stored peak pixel, subtract the local offset, accumulate totals, maxima and
center-of-mass sums. -/
def reintegrationStep (a : PanelArgs) (peakPixels : List ℕ) (localOffset : ℚ)
    (acc : ReAcc) (peakIdx : ℕ) : ReAcc :=
  let currIdx := nget peakPixels peakIdx
  let currIRaw := qget a.copy currIdx
  let currI := currIRaw - localOffset
  let currFs : ℤ := (currIdx : ℤ) % a.numPixFs
  let currSs : ℤ := (currIdx : ℤ) / a.numPixFs
  { peakTotI := acc.peakTotI + currI
    pkTotIRaw := acc.pkTotIRaw + currIRaw
    peakMaxI := if acc.peakMaxI < currI then currI else acc.peakMaxI
    pkMaxIRaw := if acc.pkMaxIRaw < currIRaw then currIRaw else acc.pkMaxIRaw
    sumComFs := acc.sumComFs + currI * (currFs : ℚ)
    sumComSs := acc.sumComSs + currI * (currSs : ℚ) }

/-- The per-peak storage of `process_panel` (the output arrays `npix`,
`com_fs`, `com_ss`, `com_index`, `tot_i`, `max_i`, `sigma`, `snr` plus the
shared `peak_count`). -/
structure PF8Stores where
  peakCount : ℕ
  npix : List ℕ
  comFs : List ℚ
  comSs : List ℚ
  comIndex : List ℤ
  totI : List ℚ
  maxI : List ℚ
  sigma : List ℚ
  snr : List ℚ
deriving DecidableEq, Repr

/-- Embedding of the guarded append at peakfinder8.cpp lines 757-773: an
accepted peak is written to the storage arrays at index `peak_count` only
while `peak_count < max_n_peaks`; either way the counter is incremented. -/
def storePeakStep (maxNPeaks : ℕ) (st : PF8Stores) (numPix : ℕ)
    (pComFs pComSs : ℚ) (pComIdx : ℤ) (pTotI pMaxI pSigma pSnr : ℚ) :
    PF8Stores :=
  if st.peakCount < maxNPeaks then
    { peakCount := st.peakCount + 1
      npix := st.npix.set st.peakCount numPix
      comFs := st.comFs.set st.peakCount pComFs
      comSs := st.comSs.set st.peakCount pComSs
      comIndex := st.comIndex.set st.peakCount pComIdx
      totI := st.totI.set st.peakCount pTotI
      maxI := st.maxI.set st.peakCount pMaxI
      sigma := st.sigma.set st.peakCount pSigma
      snr := st.snr.set st.peakCount pSnr }
  else { st with peakCount := st.peakCount + 1 }

/-- The scan state of `process_panel`: storage, shared intern data, and
(as a ghost output recording the trace) the list of linear indices of the
interior pixels the raster scan has examined as peak candidates. -/
structure PanelState where
  stores : PF8Stores
  intern : PFIntern
  examined : List ℕ
deriving DecidableEq, Repr

/-- The linear index of interior pixel `(pxss, pxfs)` of panel
`(aiss, aifs)` (peakfinder8.cpp lines 592-594). -/
def panelPixIdx (a : PanelArgs) (px : ℕ × ℕ) : ℕ :=
  (px.1 + a.aiss * a.asicSizeSs) * a.numPixFs + px.2 + a.aifs * a.asicSizeFs

/-- The interior raster of one panel: `pxss` from 1 to `asic_size_ss - 2`,
`pxfs` from 1 to `asic_size_fs - 2`, in scan order (peakfinder8.cpp lines
585-586). -/
def interiorRaster (asicSizeSs asicSizeFs : ℕ) : List (ℕ × ℕ) :=
  (List.range' 1 (asicSizeSs - 2)).flatMap (fun pxss =>
    (List.range' 1 (asicSizeFs - 2)).map (fun pxfs => (pxss, pxfs)))

/-- The body of the `process_panel` raster scan for one interior pixel
(peakfinder8.cpp lines 585-775): threshold/novelty test, flood fill,
size gate, ring background, reintegration, the three rejection rules and
the capacity-guarded append.  A `continue` keeps the flood fill's
`pix_in_peak_map` marks. -/
def processPanelStep (sqrtQ : ℚ → ℚ) (a : PanelArgs) (fuel : ℕ)
    (st : PanelState) (px : ℕ × ℕ) : PanelState :=
  let pxidx := panelPixIdx a px
  let st := { st with examined := st.examined ++ [pxidx] }
  if qget a.rthreshold (radialBinIdx a.rMap pxidx) < qget a.copy pxidx ∧
      nget st.intern.pixInPeakMap pxidx = 0 then
    let fs0 : FloodState :=
      { intern :=
          { st.intern with
            infs := st.intern.infs.set 0 (px.2 : ℤ)
            inss := st.intern.inss.set 0 (px.1 : ℤ)
            peakPixels := st.intern.peakPixels.set 0 pxidx }
        numPixInPeak := 1
        sumComFs := 0
        sumComSs := 0
        sumI := 0 }
    let ff := floodLoop a fuel fs0
    if ff.numPixInPeak < a.minPixCount ∨ a.maxPixCount < ff.numPixInPeak then
      { st with intern := ff.intern }
    else
      let peakComFs := ff.sumComFs / |ff.sumI|
      let peakComSs := ff.sumComSs / |ff.sumI|
      let comIdx : ℤ := rintQ peakComFs + rintQ peakComSs * a.numPixFs
      let peakComFsInt : ℤ := rintQ peakComFs - a.aifs * a.asicSizeFs
      let peakComSsInt : ℤ := rintQ peakComSs - a.aiss * a.asicSizeSs
      let r3 := searchInRing sqrtQ a ff.intern.pixInPeakMap peakComFsInt peakComSsInt comIdx
      let localSigma := r3.1
      let localOffset := r3.2.1
      let backgroundMaxI := r3.2.2
      let re := (reintegrationReadIdxs ff.numPixInPeak a.maxPixCount).foldl
        (reintegrationStep a ff.intern.peakPixels localOffset) ⟨0, 0, 0, 0, 0, 0⟩
      let peakComFs2 := re.sumComFs / |re.peakTotI|
      let peakComSs2 := re.sumComSs / |re.peakTotI|
      let peakSnr := re.peakTotI / localSigma
      if peakSnr < a.minSnr then { st with intern := ff.intern }
      else if re.peakMaxI < backgroundMaxI - localOffset then
        { st with intern := ff.intern }
      else if a.minPixCount ≤ ff.numPixInPeak ∧ ff.numPixInPeak ≤ a.maxPixCount then
        if re.peakTotI = 0 then { st with intern := ff.intern }
        else
          let peakComIdx : ℤ := rintQ peakComFs2 + rintQ peakComSs2 * a.numPixFs
          { st with
            intern := ff.intern
            stores := storePeakStep a.maxNPeaks st.stores ff.numPixInPeak
              peakComFs2 peakComSs2 peakComIdx re.peakTotI re.peakMaxI
              localSigma peakSnr }
      else { st with intern := ff.intern }
  else st

/-- Embedding of `process_panel` (peakfinder8.cpp lines 572-778): a raster
scan over the panel interior with no early exit of any kind. -/
def processPanel (sqrtQ : ℚ → ℚ) (a : PanelArgs) (fuel : ℕ)
    (st : PanelState) : PanelState :=
  (interiorRaster a.asicSizeSs a.asicSizeFs).foldl (processPanelStep sqrtQ a fuel) st

/-- The masked copy made by `peakfinder8_base` (peakfinder8.cpp lines
807-811): `copy[i] = data[i] * mask[i]`. -/
def maskedCopy (data : List ℚ) (mask : List ℕ) : List ℚ :=
  List.zipWith (fun d m => d * (m : ℚ)) data mask

/-- The truncation of the found-peak count performed at the end of
`peakfinder8` (peakfinder8.cpp lines 954-958): `peaks_to_add =
min(num_found_peaks, max_num_peaks)`, assigned to `peaklist->nPeaks`. -/
def pf8PeaksToAdd (numFoundPeaks maxNumPeaks : ℕ) : ℕ :=
  if numFoundPeaks > maxNumPeaks then maxNumPeaks else numFoundPeaks

/-- The indices written by the final copy loop of `peakfinder8`
(peakfinder8.cpp lines 960-969): `pki = 0 … peaks_to_add - 1`. -/
def pf8CopyIdxs (numFoundPeaks maxNumPeaks : ℕ) : List ℕ :=
  List.range (pf8PeaksToAdd numFoundPeaks maxNumPeaks)

/-! ### C6 component, local-window peak finder (`peakFinder9.cpp`) -/

/-- Embedding of `peakList_t` (peakList.h): capacity-bounded
structure-of-arrays with the running `peakCount`. -/
structure PeakList9 where
  peakCount : ℕ
  maxPeakCount : ℕ
  maxIntensity : List ℚ
  totalIntensity : List ℚ
  sigmaBackground : List ℚ
  snr : List ℚ
  pixelCount : List ℚ
  centerOfMassRawX : List ℚ
  centerOfMassRawY : List ℚ
deriving DecidableEq, Repr

/-- Embedding of `peakFinder9_intermediatePeakStatistics_t`
(peakFinder9.cpp lines 13-18). -/
structure IntermediatePeakStats where
  totalMass : ℚ
  weightedCoordinatesSummedX : ℚ
  weightedCoordinatesSummedY : ℚ
  biggestPixelMass : ℚ
  pixelCount : ℕ
deriving DecidableEq, Repr

/-- Embedding of `savePeak` (peakFinder9.cpp lines 417-438): the computed
peak record is appended at index `peakCount` only when
`peakCount < maxPeakCount`; otherwise the call is a no-op (the peak is
dropped). -/
def savePeak (sigmaBackground meanBackground : ℚ) (ips : IntermediatePeakStats)
    (pl : PeakList9) : PeakList9 :=
  let x := ips.weightedCoordinatesSummedX / ips.totalMass
  let y := ips.weightedCoordinatesSummedY / ips.totalMass
  let peakMass := ips.totalMass - (ips.pixelCount : ℚ) * meanBackground
  if pl.peakCount < pl.maxPeakCount then
    { pl with
      pixelCount := pl.pixelCount.set pl.peakCount (ips.pixelCount : ℚ)
      centerOfMassRawX := pl.centerOfMassRawX.set pl.peakCount x
      centerOfMassRawY := pl.centerOfMassRawY.set pl.peakCount y
      totalIntensity := pl.totalIntensity.set pl.peakCount peakMass
      maxIntensity := pl.maxIntensity.set pl.peakCount ips.biggestPixelMass
      sigmaBackground := pl.sigmaBackground.set pl.peakCount sigmaBackground
      snr := pl.snr.set pl.peakCount (peakMass / sigmaBackground)
      peakCount := pl.peakCount + 1 }
  else pl

/-! ### C4 component, rank-filter background subtraction
(`radialBackgroundSubtraction.cpp`) -/

/-- A panel rectangle in raw coordinates, `(x0, y0)` the upper-left and
`(x1, y1)` the lower-right corner, both inclusive (the
`rawCoordinates_uint16` rectangle of a `detectorPosition_t`). -/
structure PanelRect where
  x0 : ℕ
  y0 : ℕ
  x1 : ℕ
  y1 : ℕ
deriving DecidableEq, Repr

/-- The linear indices of the interior of a panel rectangle (one-pixel
border excluded), `y` the outer loop, as walked by
`applyRadialRankFilterBackgroundSubtraction` (radialBackgroundSubtraction.cpp
lines 112-117). -/
def rectInteriorIdxs (pixNx : ℕ) (r : PanelRect) : List ℕ :=
  (List.range' (r.y0 + 1) (r.y1 - r.y0 - 1)).flatMap (fun y =>
    (List.range' (r.x0 + 1) (r.x1 - r.x0 - 1)).map (fun x => y * pixNx + x))

/-- Embedding of `radialRankFilter_precomputedConstants_t`
(radialBackgroundSubtraction.h), restricted to the fields the per-image
call reads, with the relevant accuracy constants (`rank`, the rectangles
of the detectors to correct) inlined. -/
structure RadialRankPC where
  sparseLinearDataToConsiderIndices : List ℕ
  sparseBinIndices : List ℕ
  binCount : ℕ
  intraBinIndices : List ℕ
  binRadii : List ℚ
  intraBinInterpolationConstant : List ℚ
  rank : ℚ
  detektorsToCorrect : List PanelRect
deriving DecidableEq, Repr

/-- Embedding of `gatherBinsData` (radialBackgroundSubtraction.cpp lines
129-141): distribute `data[sparse index i]` into bin `sparseBinIndices[i]`. -/
def gatherBinsData (pc : RadialRankPC) (data : List ℚ) : List (List ℚ) :=
  (List.range pc.sparseLinearDataToConsiderIndices.length).foldl
    (fun bins i =>
      let b := nget pc.sparseBinIndices i
      bins.set b (bins.getD b [] ++
        [qget data (nget pc.sparseLinearDataToConsiderIndices i)]))
    (List.replicate pc.binCount [])

/-- The rank index `max((uint32_t)(rank * N), 1u) - 1` of `computeBinValues`
(radialBackgroundSubtraction.cpp line 148); the float-to-unsigned cast
truncates, which for the non-negative product is the floor. -/
def intRankOf (rank : ℚ) (n : ℕ) : ℕ := max (ratFloor (rank * n)).toNat 1 - 1

/-- The value `nth_element` leaves at position `k`: the `k`-th element of
the sorted bin. -/
def nthElementValue (l : List ℚ) (k : ℕ) : ℚ := (l.insertionSort (· ≤ ·)).getD k 0

/-- Embedding of `computeBinValues` (radialBackgroundSubtraction.cpp lines
144-166): per-bin rank-filter values for the non-sentinel bins (the
`resize` zero-initialises the two sentinel slots), then linear
extrapolation into slot 0 and — using the already-updated slot 0 when
`binCount = 3` — into the last slot. -/
def computeBinValues (pc : RadialRankPC) (binsWithData : List (List ℚ)) : List ℚ :=
  let base := (List.range pc.binCount).map (fun i =>
    if 1 ≤ i ∧ i + 1 < pc.binCount then
      nthElementValue (binsWithData.getD i [])
        (intRankOf pc.rank (binsWithData.getD i []).length)
    else 0)
  let v0 := qget base 1 +
    (qget base 1 - qget base 2) / (qget pc.binRadii 2 - qget pc.binRadii 1) *
      (qget pc.binRadii 1 - qget pc.binRadii 0)
  let base0 := base.set 0 v0
  let last := pc.binCount - 1
  let vLast := qget base0 (last - 1) +
    (qget base0 (last - 1) - qget base0 (last - 2)) /
      (qget pc.binRadii (last - 1) - qget pc.binRadii (last - 2)) *
      (qget pc.binRadii last - qget pc.binRadii (last - 1))
  base0.set last vLast

/-- Embedding of `applyRadialRankFilterBackgroundSubtraction`
(radialBackgroundSubtraction.cpp lines 95-125): gather the per-image bin
data, compute the bin values, then subtract the interpolated background
in place from every interior pixel of every detector-to-correct whose
value differs from `FLT_MAX` — note the guard compares against *positive*
`FLT_MAX` (line 118), not the sentinel `-FLT_MAX`. -/
def applyRadialRankFilterBackgroundSubtraction (pc : RadialRankPC)
    (pixNx : ℕ) (data : List ℚ) : List ℚ :=
  let binValues := computeBinValues pc (gatherBinsData pc data)
  pc.detektorsToCorrect.foldl (fun d r =>
    (rectInteriorIdxs pixNx r).foldl (fun d li =>
      if qget d li ≠ FLT_MAX_Q then
        d.set li (qget d li -
          (qget binValues (nget pc.intraBinIndices li) +
            qget pc.intraBinInterpolationConstant li *
              (qget binValues (nget pc.intraBinIndices li + 1) -
                qget binValues (nget pc.intraBinIndices li))))
      else d) d) data

/-- A 3×3 one-panel configuration for the rank filter: two non-sentinel
bins fed by pixels 0 and 2, bin radii 0,1,2,3, the centre pixel 4 mapped to
bin 1 with interpolation weight 0. -/
def c5PC : RadialRankPC :=
  { sparseLinearDataToConsiderIndices := [0, 2]
    sparseBinIndices := [1, 2]
    binCount := 4
    intraBinIndices := ((List.replicate 9 0).set 4 1)
    binRadii := [0, 1, 2, 3]
    intraBinInterpolationConstant := List.replicate 9 0
    rank := 1 / 2
    detektorsToCorrect := [⟨0, 0, 2, 2⟩] }

/-- A fully sentinel-valued 3×3 image (e.g. after masking every pixel). -/
def c5Data : List ℚ := List.replicate 9 (-FLT_MAX_Q)

/-! ### C3 component, radial-bin precomputation
(`radialBackgroundSubtraction.cpp`, precompute path) -/

/-- Embedding of `gatherAvailableRadii` (radialBackgroundSubtraction.cpp
lines 169-196): collect the radius of every interior pixel with mask entry
0 of every detector-to-consider, in scan order. -/
def gatherAvailableRadii (mask : List ℕ) (rMap : List ℚ) (pixNx : ℕ)
    (rects : List PanelRect) : List ℚ :=
  rects.flatMap (fun r =>
    (rectInteriorIdxs pixNx r).filterMap (fun li =>
      if nget mask li = 0 then some (qget rMap li) else none))

/-- The body of the `fillBins` sweep (radialBackgroundSubtraction.cpp lines
205-214) for one radius, on the state (completed bins, current bin): while
the current bin has fewer than `minValuesPerBin` entries or spans less than
`minBinWidth`, the radius joins it; otherwise it opens a new bin. -/
def fillBinsStep (minV : ℕ) (minW : ℚ) (acc : List (List ℚ) × List ℚ)
    (r : ℚ) : List (List ℚ) × List ℚ :=
  if acc.2.length < minV ∨ acc.2.getLastD 0 - acc.2.headD 0 < minW then
    (acc.1, acc.2 ++ [r])
  else (acc.1 ++ [acc.2], [r])

/-- The sweep of `fillBins` over the (sorted) radii, as (completed bins,
current bin). -/
def fillBinsAcc (minV : ℕ) (minW : ℚ) (radii : List ℚ) :
    List (List ℚ) × List ℚ :=
  radii.foldl (fillBinsStep minV minW) ([], [])

/-- Embedding of `fillBins` (radialBackgroundSubtraction.cpp lines
198-216): all bins, the still-open last bin included. -/
def fillBins (minV : ℕ) (minW : ℚ) (radii : List ℚ) : List (List ℚ) :=
  (fillBinsAcc minV minW radii).1 ++ [(fillBinsAcc minV minW radii).2]

/-- `build_radial_bins` up to the bin partition: gather the available
radii, sort them ascending (`sortTwoVectorsByFirstVector`), and sweep. -/
def buildRadialBinsBins (minV : ℕ) (minW : ℚ) (mask : List ℕ)
    (rMap : List ℚ) (pixNx : ℕ) (rects : List PanelRect) : List (List ℚ) :=
  fillBins minV minW
    ((gatherAvailableRadii mask rMap pixNx rects).insertionSort (· ≤ ·))

/-- The running minimum of `computeBinRadii` (radialBackgroundSubtraction.cpp
lines 296-312), initialised with `numeric_limits<float>::max()`. -/
def binsMinRadius (bins : List (List ℚ)) : ℚ :=
  bins.foldl (fun mn b => b.foldl min mn) FLT_MAX_Q

/-- The running maximum of `computeBinRadii`, initialised with 0. -/
def binsMaxRadius (bins : List (List ℚ)) : ℚ :=
  bins.foldl (fun mx b => b.foldl max mx) 0

/-- Mean of a list of rationals (`sum / binsWithRadii[i].size()`). -/
def listMean (l : List ℚ) : ℚ := l.sum / (l.length : ℚ)

/-- Embedding of `computeBinRadii` (radialBackgroundSubtraction.cpp lines
294-315): the representative radii are the global minimum (sentinel bin 0),
the per-bin means, and the global maximum (last sentinel bin). -/
def computeBinRadii (bins : List (List ℚ)) : List ℚ :=
  binsMinRadius bins :: (bins.map listMean ++ [binsMaxRadius bins])

/-- All-good mask on a 4×4 image, for the radial-bin scenario. -/
def c6Mask : List ℕ := List.replicate 16 0

/-- A radius map on the 4×4 image whose four interior pixels (5, 6, 9, 10)
have radii 1, 2, 3, 4. -/
def c6RMap : List ℚ :=
  ((((List.replicate 16 (0 : ℚ)).set 5 1).set 6 2).set 9 3).set 10 4

/-! ### C1 component, detector geometry (`detectorGeometry.cpp`) -/

/-- A 2-vector of exact rationals (`Eigen::Vector2f`). -/
structure Vec2Q where
  x : ℚ
  y : ℚ
deriving DecidableEq, Repr

/-- Embedding of `detectorRawFormat_t` (detectorRawFormat.h). -/
structure DetectorRawFormatQ where
  asicNx : ℕ
  asicNy : ℕ
  nasicsX : ℕ
  nasicsY : ℕ
deriving DecidableEq, Repr

/-- `pix_nx = asic_nx · nasics_x`. -/
def DetectorRawFormatQ.pixNx (raw : DetectorRawFormatQ) : ℕ :=
  raw.asicNx * raw.nasicsX

/-- Embedding of `detectorPosition_t` (detectorGeometry.h), restricted to
the fields `computeDetectorPositionsFromDetectorGeometryMatrix` fills
(the two redundant rectangle copies are represented by the corner
fields). -/
structure DetectorPositionQ where
  minFs : ℕ
  minSs : ℕ
  maxFs : ℕ
  maxSs : ℕ
  fs : Vec2Q
  ss : Vec2Q
  corner : Vec2Q
  virtualZeroPositionRaw : Vec2Q
deriving DecidableEq, Repr

/-- The position-map entry at row `yy`, column `xx` of the row-major
geometry matrix. -/
def geomAt (m : List Vec2Q) (pixNx yy xx : ℕ) : Vec2Q :=
  m.getD (yy * pixNx + xx) ⟨0, 0⟩

/-- Componentwise difference of position-map entries. -/
def vsub (a b : Vec2Q) : Vec2Q := ⟨a.x - b.x, a.y - b.y⟩

/-- Embedding of `updateVirtualZeroPosition` (detectorGeometry.cpp lines
58-69): `acos` of the normalised dot product of `fs` with `-corner`, then
the rotated corner distance added to the panel's upper-left raw corner.
`sqrt`, `acos`, `cos`, `sin` are the explicit parameters. -/
def updateVirtualZeroPosition (sqrtQ acosQ cosQ sinQ : ℚ → ℚ)
    (p : DetectorPositionQ) : DetectorPositionQ :=
  let numerator := p.fs.x * (-p.corner.x) + p.fs.y * (-p.corner.y)
  let cornerNorm := sqrtQ (p.corner.x * p.corner.x + p.corner.y * p.corner.y)
  let denominator := sqrtQ (p.fs.x * p.fs.x + p.fs.y * p.fs.y) * cornerNorm
  let angle := acosQ (numerator / denominator)
  { p with virtualZeroPositionRaw :=
      ⟨(p.minFs : ℚ) + cosQ angle * cornerNorm,
        (p.minSs : ℚ) + sinQ angle * cornerNorm⟩ }

/-- One panel of `computeDetectorPositionsFromDetectorGeometryMatrix`
(detectorGeometry.cpp lines 29-55): raw bounds, basis vectors from
adjacent position-map entries, the half-pixel-shifted corner, and the
virtual zero position.  No validation of any kind is performed. -/
def computePanel (sqrtQ acosQ cosQ sinQ : ℚ → ℚ) (raw : DetectorRawFormatQ)
    (m : List Vec2Q) (asicX asicY : ℕ) : DetectorPositionQ :=
  let minFs := asicX * raw.asicNx
  let minSs := asicY * raw.asicNy
  let p00 := geomAt m raw.pixNx minSs minFs
  let fs := vsub (geomAt m raw.pixNx minSs (minFs + 1)) p00
  let ss := vsub (geomAt m raw.pixNx (minSs + 1) minFs) p00
  updateVirtualZeroPosition sqrtQ acosQ cosQ sinQ
    { minFs := minFs
      minSs := minSs
      maxFs := (asicX + 1) * raw.asicNx - 1
      maxSs := (asicY + 1) * raw.asicNy - 1
      fs := fs
      ss := ss
      corner := ⟨p00.x - fs.x / 2 - ss.x / 2, p00.y - fs.y / 2 - ss.y / 2⟩
      virtualZeroPositionRaw := ⟨0, 0⟩ }

/-- Embedding of `computeDetectorPositionsFromDetectorGeometryMatrix`
(detectorGeometry.cpp lines 17-56), as the table of panel records the
loops assign at `[asic_y][asic_x]`.  (The source resizes the outer vector
to `nasics_x` but indexes it by `asic_y`; the model represents the values
the loop body computes and assigns.) -/
def computeDetectorPositionsFromDetectorGeometryMatrix
    (sqrtQ acosQ cosQ sinQ : ℚ → ℚ) (raw : DetectorRawFormatQ)
    (m : List Vec2Q) : List (List DetectorPositionQ) :=
  (List.range raw.nasicsY).map (fun asicY =>
    (List.range raw.nasicsX).map (fun asicX =>
      computePanel sqrtQ acosQ cosQ sinQ raw m asicX asicY))

/-- The error kind named by the spec's `build_geometry` interface. -/
inductive GeometryError where
  | badGeometry
deriving DecidableEq, Repr

/-- The `build_geometry` operation of the external interface, implemented
by `computeDetectorPositionsFromDetectorGeometryMatrix`: the source
contains no validation and no failure path, so the result is always
`Except.ok`. -/
def build_geometry (sqrtQ acosQ cosQ sinQ : ℚ → ℚ) (raw : DetectorRawFormatQ)
    (m : List Vec2Q) :
    Except GeometryError (List (List DetectorPositionQ)) :=
  Except.ok (computeDetectorPositionsFromDetectorGeometryMatrix
    sqrtQ acosQ cosQ sinQ raw m)

/-- The zero panel record, used as the out-of-range default of the panel
table accessor. -/
def dp0 : DetectorPositionQ :=
  ⟨0, 0, 0, 0, ⟨0, 0⟩, ⟨0, 0⟩, ⟨0, 0⟩, ⟨0, 0⟩⟩

/-- A degenerate single-panel 2×2 position map: every entry is the origin,
so both derived basis vectors are zero. -/
def c7Raw : DetectorRawFormatQ := ⟨2, 2, 1, 1⟩

/-- The all-zero position map of the degenerate scenario. -/
def c7M : List Vec2Q := List.replicate 4 ⟨0, 0⟩

/-! ### Concrete scenario for the early-exit question of the radial peak
finder: a single 5×5 panel containing two isolated bright pixels, with
`max_num_peaks = 1`.  The radius map is identically 0, the single radial
bin has threshold 5 and offset 0. -/

/-- Two bright pixels (value 10) at linear indices 6 = (1,1) and
18 = (3,3) of a 5×5 image, zero elsewhere. -/
def c8Data : List ℚ := ((List.replicate 25 (0 : ℚ)).set 6 10).set 18 10

/-- The peakfinder8 mask of the scenario: non-zero (= eligible in this
code) exactly at the two bright pixels. -/
def c8Mask : List ℕ := ((List.replicate 25 0).set 6 1).set 18 1

/-- The panel arguments of the scenario: one 5×5 panel,
`min_pix_count = 1`, `max_pix_count = 10`, `local_bg_radius = 1`,
`min_snr = 0` and capacity `max_num_peaks = 1`. -/
def c8Args : PanelArgs :=
  { asicSizeFs := 5
    asicSizeSs := 5
    numPixFs := 5
    aifs := 0
    aiss := 0
    rthreshold := [5]
    roffset := [0]
    copy := maskedCopy c8Data c8Mask
    rMap := List.replicate 25 0
    mask := c8Mask
    minPixCount := 1
    maxPixCount := 10
    localBgRadius := 1
    minSnr := 0
    maxNPeaks := 1 }

/-- The initial scan state of the scenario: empty one-slot storage and
freshly allocated intern data. -/
def c8State0 : PanelState :=
  { stores := ⟨0, [0], [0], [0], [0], [0], [0], [0], [0]⟩
    intern := allocatePeakfinderInternData 25 10
    examined := [] }

/-! ### C7 component, streak finder (`streakFinder.cpp`), per-image
kernel -/

/-- The C `round` (half away from zero), used for the streak cursor. -/
def roundHalfAway (q : ℚ) : ℤ :=
  if q < 0 then -(ratFloor (-q + 1 / 2)) else ratFloor (q + 1 / 2)

/-- Per-seed precomputed mask data (`streakPixels_t`, streakFinder.h). -/
structure StreakPixels where
  pixelsToMaskIndices : List ℕ
  numberOfPixelsToMaskForStreakLength : List ℕ
deriving DecidableEq, Repr

/-- The panel data the per-image streak kernel reads from a
`detectorPosition_t`: the float raw-coordinate rectangle and the virtual
zero position. -/
structure DetPanelF where
  minX : ℚ
  minY : ℚ
  maxX : ℚ
  maxY : ℚ
  virtualZero : ℚ × ℚ
deriving DecidableEq, Repr

/-- Modelled from the spec: `ImageRectangle<float>::contains` (the header
`ImageRectangle.h` is not part of the sources); a point is contained when
it lies within the rectangle's corners componentwise. -/
def containsF (det : DetPanelF) (p : ℚ × ℚ) : Prop :=
  det.minX ≤ p.1 ∧ p.1 ≤ det.maxX ∧ det.minY ≤ p.2 ∧ p.2 ≤ det.maxY

instance (det : DetPanelF) (p : ℚ × ℚ) : Decidable (containsF det p) := by
  unfold containsF; infer_instance

/-- Embedding of `streakFinder_precomputedConstants_t` (streakFinder.h):
per-seed direction vectors, panels and mask tables, and the per-pixel
radial-filter contributor table (`radialFilterContributors[y][x][·]`,
`-1`-terminated rows, here indexed by the linear pixel index). -/
structure StreakPC where
  filterDirectionVectors : List (ℚ × ℚ)
  pixelToCheckDetectors : List DetPanelF
  radialFilterContributors : List (List ℤ)
  streaksPixels : List StreakPixels
deriving DecidableEq, Repr

/-- The accuracy constants the per-image streak kernel reads
(`streakFinder_accuracyConstants_t`, streakFinder.h). -/
structure StreakAC where
  sigmaFactor : ℚ
  streakElongationMinStepsCount : ℕ
  streakElongationRadiusFactor : ℚ
  pixelsToCheck : List (ℕ × ℕ)
  backgroundEstimationRegions : List PanelRect
deriving DecidableEq, Repr

/-- Embedding of `computeRadialFilter` (streakFinder.cpp lines 420-446):
the sentinel `-FLT_MAX` when the pixel's contributor list is empty,
otherwise the mean of the lower half plus median of the contributor
values (`nth_element` median selection followed by `accumulate` over the
partitioned lower half, whose multiset is the `n/2` smallest values). -/
def computeRadialFilter (data : List ℚ) (pixNx : ℕ) (rfc : List (List ℤ))
    (x y : ℕ) : ℚ :=
  let slots := rfc.getD (y * pixNx + x) []
  if slots.getD 0 (-1) < 0 then -FLT_MAX_Q
  else
    let contribs := (slots.takeWhile (fun v => decide (0 ≤ v))).map
      (fun v => qget data v.toNat)
    let n := contribs.length
    let sorted := contribs.insertionSort (· ≤ ·)
    ((sorted.take (n / 2)).sum + sorted.getD (n / 2) 0) / (((n / 2 : ℕ) : ℚ) + 1)

/-- All pixel coordinates of a background-estimation rectangle
(both loops inclusive, `y` outer: streakFinder.cpp lines 381-382). -/
def rectAllCoords (r : PanelRect) : List (ℕ × ℕ) :=
  (List.range' r.y0 (r.y1 + 1 - r.y0)).flatMap (fun y =>
    (List.range' r.x0 (r.x1 + 1 - r.x0)).map (fun x => (x, y)))

/-- Embedding of `computeStreakThreshold` (streakFinder.cpp lines 368-417):
per-region mean and sample sigma over non-sentinel filter values, then the
region with the second-smallest sigma (`nth_element` over region indices)
sets `threshold = mean + sigmaFactor · sigma`. -/
def computeStreakThreshold (sqrtQ : ℚ → ℚ) (data : List ℚ) (pixNx : ℕ)
    (rfc : List (List ℤ)) (ac : StreakAC) : ℚ :=
  let stats := ac.backgroundEstimationRegions.foldl (fun acc r =>
    let s := (rectAllCoords r).foldl (fun (t : ℕ × ℚ × ℚ) xy =>
      let fv := computeRadialFilter data pixNx rfc xy.1 xy.2
      if fv ≠ -FLT_MAX_Q then (t.1 + 1, t.2.1 + fv, t.2.2 + fv * fv) else t)
      (0, 0, 0)
    if 0 < s.1 then
      let mean := s.2.1 / (s.1 : ℚ)
      acc ++ [(mean, sqrtQ ((s.2.2 - mean * mean * (s.1 : ℚ)) / ((s.1 : ℚ) - 1)))]
    else acc) ([] : List (ℚ × ℚ))
  let order := (List.range stats.length).insertionSort
    (fun i j => (stats.getD i (0, 0)).2 ≤ (stats.getD j (0, 0)).2)
  let sel := order.getD 1 0
  (stats.getD sel (0, 0)).1 + ac.sigmaFactor * (stats.getD sel (0, 0)).2

/-- The streak-growth loop of `streakFinder` (streakFinder.cpp lines
88-108), with fuel: advance the cursor along the direction vector while
inside the panel and while the no-streak-pixel counter stays below the
elongation limit; a filter value above the threshold resets the counter
and re-derives the limit from the current radius. -/
def streakGrowLoop (sqrtQ : ℚ → ℚ) (data : List ℚ) (pixNx : ℕ)
    (rfc : List (List ℤ)) (ac : StreakAC) (det : DetPanelF) (d : ℚ × ℚ)
    (threshold : ℚ) :
    ℕ → ℚ × ℚ → ℕ → ℚ → ℕ → ℕ
  | 0, _, _, _, len => len
  | fuel + 1, point, steps, stepCount, len =>
      if (steps : ℚ) < stepCount ∧ containsF det point then
        let fv := computeRadialFilter data pixNx rfc
          (roundHalfAway point.1).toNat (roundHalfAway point.2).toNat
        let point' := (point.1 + d.1, point.2 + d.2)
        if threshold < fv then
          let r := sqrtQ ((det.virtualZero.1 - point.1) *
            (det.virtualZero.1 - point.1) +
            (det.virtualZero.2 - point.2) * (det.virtualZero.2 - point.2))
          streakGrowLoop sqrtQ data pixNx rfc ac det d threshold fuel point' 0
            (max (ac.streakElongationMinStepsCount : ℚ)
              (ac.streakElongationRadiusFactor * r)) (len + 1)
        else
          streakGrowLoop sqrtQ data pixNx rfc ac det d threshold fuel point'
            (steps + 1) stepCount (len + 1)
      else len

/-- The streak length grown from one seed (streakFinder.cpp lines 81-108):
start one direction step past the seed, with the elongation limit derived
from the initial radius. -/
def streakGrow (sqrtQ : ℚ → ℚ) (data : List ℚ) (pixNx : ℕ)
    (rfc : List (List ℤ)) (ac : StreakAC) (det : DetPanelF) (d : ℚ × ℚ)
    (threshold : ℚ) (seed : ℕ × ℕ) (fuel : ℕ) : ℕ :=
  let point : ℚ × ℚ := ((seed.1 : ℚ) + d.1, (seed.2 : ℚ) + d.2)
  let r := sqrtQ ((det.virtualZero.1 - point.1) * (det.virtualZero.1 - point.1) +
    (det.virtualZero.2 - point.2) * (det.virtualZero.2 - point.2))
  streakGrowLoop sqrtQ data pixNx rfc ac det d threshold fuel point 0
    (max (ac.streakElongationMinStepsCount : ℚ)
      (ac.streakElongationRadiusFactor * r)) 0

/-- The mask list applied for seed `n` after a streak of length `L`: the
first `numberOfPixelsToMaskForStreakLength[L]` entries of the seed's
pre-sorted `pixelsToMaskIndices` (streakFinder.cpp lines 110-115). -/
def seedMaskIdxs (sqrtQ : ℚ → ℚ) (ac : StreakAC) (pc : StreakPC)
    (pixNx fuel : ℕ) (data : List ℚ) (n : ℕ) : List ℕ :=
  let threshold := computeStreakThreshold sqrtQ data pixNx
    pc.radialFilterContributors ac
  let seed := ac.pixelsToCheck.getD n (0, 0)
  let det := pc.pixelToCheckDetectors.getD n ⟨0, 0, 0, 0, (0, 0)⟩
  let d := pc.filterDirectionVectors.getD n (0, 0)
  let len := streakGrow sqrtQ data pixNx pc.radialFilterContributors ac det d
    threshold seed fuel
  let sp := pc.streaksPixels.getD n ⟨[], []⟩
  sp.pixelsToMaskIndices.take (sp.numberOfPixelsToMaskForStreakLength.getD len 0)

/-- The filter value at seed `n` (streakFinder.cpp lines 76-77). -/
def seedFilterValue (ac : StreakAC) (pc : StreakPC) (pixNx : ℕ)
    (data : List ℚ) (n : ℕ) : ℚ :=
  computeRadialFilter data pixNx pc.radialFilterContributors
    (ac.pixelsToCheck.getD n (0, 0)).1 (ac.pixelsToCheck.getD n (0, 0)).2

/-- The selection phase of `streakFinder` (streakFinder.cpp lines 62-118):
for each seed whose filter value exceeds the threshold, grow the streak
and collect the mask list for the grown length. -/
def streakFinderSelect (sqrtQ : ℚ → ℚ) (ac : StreakAC) (pc : StreakPC)
    (pixNx fuel : ℕ) (data : List ℚ) : List (List ℕ) :=
  (List.range ac.pixelsToCheck.length).filterMap (fun n =>
    if computeStreakThreshold sqrtQ data pixNx pc.radialFilterContributors ac <
        seedFilterValue ac pc pixNx data n then
      some (seedMaskIdxs sqrtQ ac pc pixNx fuel data n)
    else none)

/-- The masking phase of `streakFinder` (streakFinder.cpp lines 120-127):
write the sentinel `-FLT_MAX` at every collected index. -/
def streakFinderApply (idxsList : List (List ℕ)) (data : List ℚ) : List ℚ :=
  idxsList.foldl (fun d idxs =>
    idxs.foldl (fun d i => d.set i (-FLT_MAX_Q)) d) data

/-- Embedding of `streakFinder` (streakFinder.cpp lines 58-128): selection
over the unmodified data, then the sentinel writes. -/
def streakFinder (sqrtQ : ℚ → ℚ) (ac : StreakAC) (pc : StreakPC)
    (pixNx fuel : ℕ) (data : List ℚ) : List ℚ :=
  streakFinderApply (streakFinderSelect sqrtQ ac pc pixNx fuel data) data

/-- A one-seed streak scenario on a 3×3 single-panel image: the seed (1,1)
has the bright pixel 0 as its single filter contributor, two
background-estimation rectangles cover rows 0 and 2, and the seed's mask
table holds pixels 4 and 5 with cumulative counts `[1, 2]`. -/
def c10PC : StreakPC :=
  { filterDirectionVectors := [(1, 0)]
    pixelToCheckDetectors := [⟨0, 0, 2, 2, (0, 0)⟩]
    radialFilterContributors :=
      [[1, -1], [1, -1], [-1], [-1], [0, -1], [-1], [7, -1], [7, -1], [-1]]
    streaksPixels := [⟨[4, 5], [1, 2]⟩] }

/-- The accuracy constants of the streak scenario. -/
def c10AC : StreakAC :=
  { sigmaFactor := 0
    streakElongationMinStepsCount := 1
    streakElongationRadiusFactor := 0
    pixelsToCheck := [(1, 1)]
    backgroundEstimationRegions := [⟨0, 0, 1, 0⟩, ⟨0, 2, 1, 2⟩] }

/-- The image of the streak scenario: bright pixel 0, pre-masked
(sentinel) pixel 5, zero elsewhere. -/
def c10Data : List ℚ :=
  ((List.replicate 9 (0 : ℚ)).set 0 10).set 5 (-FLT_MAX_Q)

-- ### Theorems ###

/-! Helper lemmas about the default-0 array accessors. -/

theorem qget_set_eq {l : List ℚ} {i : ℕ} (v : ℚ) (h : i < l.length) :
    qget (l.set i v) i = v := by
  simp [qget, List.getD_eq_getElem?_getD, List.getElem?_set_eq_of_lt v h]

theorem qget_set_ne {l : List ℚ} {i j : ℕ} (v : ℚ) (h : i ≠ j) :
    qget (l.set j v) i = qget l i := by
  simp [qget, List.getD_eq_getElem?_getD, List.getElem?_set_ne (Ne.symm h)]

theorem nget_set_eq {l : List ℕ} {i : ℕ} (v : ℕ) (h : i < l.length) :
    nget (l.set i v) i = v := by
  simp [nget, List.getD_eq_getElem?_getD, List.getElem?_set_eq_of_lt v h]

theorem nget_set_ne {l : List ℕ} {i j : ℕ} (v : ℕ) (h : i ≠ j) :
    nget (l.set j v) i = nget l i := by
  simp [nget, List.getD_eq_getElem?_getD, List.getElem?_set_ne (Ne.symm h)]

theorem zget_set_eq {l : List ℤ} {i : ℕ} (v : ℤ) (h : i < l.length) :
    zget (l.set i v) i = v := by
  simp [zget, List.getD_eq_getElem?_getD, List.getElem?_set_eq_of_lt v h]

theorem zget_set_ne {l : List ℤ} {i j : ℕ} (v : ℤ) (h : i ≠ j) :
    zget (l.set j v) i = zget l i := by
  simp [zget, List.getD_eq_getElem?_getD, List.getElem?_set_ne (Ne.symm h)]

/-- Claim C1 (code bug): the mask round-trip fails.  On the one-pixel image
with data `0.0` and mask `[1]` (bad), `mergeMaskIntoData` writes the sentinel
`-FLT_MAX`, which is a *finite* float, so `getMaskFromMergedMaskInData`
reads the pixel back as good (0): the original mask `[1]` is not recovered,
contradicting the claimed round-trip identity. -/
theorem C1_mask_roundtrip_fails_at_bad_pixel :
    getMaskFromMergedMaskInData (mergeMaskIntoData [FloatV.val 0] [1]) = [0] ∧
      ([0] : List ℕ) ≠ [1] := by
  constructor
  · rfl
  · decide

/-- One `compute_radial_stats` step at a bin `j ≠ ri` changes nothing at
bin `ri` (and never changes `rcount` or the array lengths). -/
theorem computeRadialStatsStep_notouch (sqrtQ : ℚ → ℚ) (minSnr acd : ℚ)
    {ri j : ℕ} (h : j ≠ ri) (s : RadialState) :
    (computeRadialStatsStep sqrtQ minSnr acd s j).rcount = s.rcount ∧
    qget (computeRadialStatsStep sqrtQ minSnr acd s j).roffset ri = qget s.roffset ri ∧
    qget (computeRadialStatsStep sqrtQ minSnr acd s j).rsigma ri = qget s.rsigma ri ∧
    qget (computeRadialStatsStep sqrtQ minSnr acd s j).rthreshold ri = qget s.rthreshold ri ∧
    (computeRadialStatsStep sqrtQ minSnr acd s j).roffset.length = s.roffset.length ∧
    (computeRadialStatsStep sqrtQ minSnr acd s j).rsigma.length = s.rsigma.length ∧
    (computeRadialStatsStep sqrtQ minSnr acd s j).rthreshold.length = s.rthreshold.length := by
  unfold computeRadialStatsStep
  have hne : ri ≠ j := Ne.symm h
  split <;>
    simp [qget_set_ne _ hne, List.length_set]

/-- Folding `compute_radial_stats` steps over bins none of which is `ri`
changes nothing at bin `ri`. -/
theorem computeRadialStats_fold_notouch (sqrtQ : ℚ → ℚ) (minSnr acd : ℚ) (ri : ℕ) :
    ∀ (L : List ℕ) (s : RadialState), (∀ j ∈ L, j ≠ ri) →
    (L.foldl (computeRadialStatsStep sqrtQ minSnr acd) s).rcount = s.rcount ∧
    qget (L.foldl (computeRadialStatsStep sqrtQ minSnr acd) s).roffset ri = qget s.roffset ri ∧
    qget (L.foldl (computeRadialStatsStep sqrtQ minSnr acd) s).rsigma ri = qget s.rsigma ri ∧
    qget (L.foldl (computeRadialStatsStep sqrtQ minSnr acd) s).rthreshold ri = qget s.rthreshold ri ∧
    (L.foldl (computeRadialStatsStep sqrtQ minSnr acd) s).roffset.length = s.roffset.length ∧
    (L.foldl (computeRadialStatsStep sqrtQ minSnr acd) s).rsigma.length = s.rsigma.length ∧
    (L.foldl (computeRadialStatsStep sqrtQ minSnr acd) s).rthreshold.length = s.rthreshold.length := by
  intro L
  induction L with
  | nil => intro s _; simp
  | cons a L ih =>
    intro s hL
    have ha : a ≠ ri := hL a (by simp)
    have hstep := computeRadialStatsStep_notouch sqrtQ minSnr acd ha s
    have hrec := ih (computeRadialStatsStep sqrtQ minSnr acd s a)
      (fun j hj => hL j (by simp [hj]))
    simp only [List.foldl_cons]
    exact ⟨hrec.1.trans hstep.1,
      hrec.2.1.trans hstep.2.1,
      hrec.2.2.1.trans hstep.2.2.1,
      hrec.2.2.2.1.trans hstep.2.2.2.1,
      hrec.2.2.2.2.1.trans hstep.2.2.2.2.1,
      hrec.2.2.2.2.2.1.trans hstep.2.2.2.2.2.1,
      hrec.2.2.2.2.2.2.trans hstep.2.2.2.2.2.2⟩

/-- Claim C4 (amended): in `compute_radial_stats`, every radial bin with
zero contributors is assigned offset 0, sigma 0 and the finite threshold
`1e9` — not `+∞` as the claim states, and no lower threshold exists in this
implementation. -/
theorem C4_empty_bin_gets_zero_stats_and_1e9_threshold (sqrtQ : ℚ → ℚ)
    (minSnr acd : ℚ) (s : RadialState) (ri n : ℕ)
    (hrin : ri < n) (h0 : nget s.rcount ri = 0)
    (h1 : ri < s.roffset.length) (h2 : ri < s.rsigma.length)
    (h3 : ri < s.rthreshold.length) :
    qget (computeRadialStats sqrtQ n minSnr acd s).roffset ri = 0 ∧
    qget (computeRadialStats sqrtQ n minSnr acd s).rsigma ri = 0 ∧
    qget (computeRadialStats sqrtQ n minSnr acd s).rthreshold ri = 10 ^ 9 := by
  unfold computeRadialStats
  have hsplit : List.range n = List.range ri ++ (List.range (n - ri)).map (ri + ·) := by
    rw [← List.range_add]; congr 1; omega
  have hpos : n - ri = 1 + (n - ri - 1) := by omega
  rw [hsplit, List.foldl_append]
  -- the bins before `ri` do not touch bin `ri`
  have hpre := computeRadialStats_fold_notouch sqrtQ minSnr acd ri (List.range ri) s
    (fun j hj => by have := List.mem_range.mp hj; omega)
  set s₁ := (List.range ri).foldl (computeRadialStatsStep sqrtQ minSnr acd) s with hs₁
  rw [hpos, List.range_add, List.map_append, List.foldl_append]
  have hone : List.range 1 = [0] := by decide
  simp only [hone, List.map_cons, List.map_nil, Nat.add_zero, List.foldl_cons,
    List.foldl_nil, List.map_map, Function.comp]
  -- the step at `ri` takes the empty-bin branch
  have hcnt : nget s₁.rcount ri = 0 := by rw [hpre.1]; exact h0
  have hstep : computeRadialStatsStep sqrtQ minSnr acd s₁ ri =
      { s₁ with
        roffset := s₁.roffset.set ri 0
        rsigma := s₁.rsigma.set ri 0
        rthreshold := s₁.rthreshold.set ri (10 ^ 9) } := by
    unfold computeRadialStatsStep
    rw [if_pos hcnt]
  rw [hstep]
  -- the bins after `ri` do not touch bin `ri`
  have hpost := computeRadialStats_fold_notouch sqrtQ minSnr acd ri
    ((List.range (n - ri - 1)).map (fun x => ri + (1 + x)))
    { s₁ with
      roffset := s₁.roffset.set ri 0
      rsigma := s₁.rsigma.set ri 0
      rthreshold := s₁.rthreshold.set ri (10 ^ 9) }
    (by
      intro j hj
      obtain ⟨x, _, hx⟩ := List.mem_map.mp hj
      omega)
  refine ⟨hpost.2.1.trans ?_, hpost.2.2.1.trans ?_, hpost.2.2.2.1.trans ?_⟩
  · exact qget_set_eq 0 (by rw [hpre.2.2.2.2.1]; exact h1)
  · exact qget_set_eq 0 (by rw [hpre.2.2.2.2.2.1]; exact h2)
  · exact qget_set_eq (10 ^ 9) (by rw [hpre.2.2.2.2.2.2]; exact h3)

/-- Witness for C4's amended theorem at a concrete single empty bin. -/
theorem C4_empty_bin_witness :
    qget (computeRadialStats (fun q => q) 1 3 10 ⟨[5], [5], [5], [0]⟩).roffset 0 = 0 ∧
    qget (computeRadialStats (fun q => q) 1 3 10 ⟨[5], [5], [5], [0]⟩).rsigma 0 = 0 ∧
    qget (computeRadialStats (fun q => q) 1 3 10 ⟨[5], [5], [5], [0]⟩).rthreshold 0 = 10 ^ 9 :=
  C4_empty_bin_gets_zero_stats_and_1e9_threshold (fun q => q) 3 10 ⟨[5], [5], [5], [0]⟩ 0 1
    (by decide) (by decide) (by decide) (by decide) (by decide)

/-- Counterexample to claim C4 as stated: the upper threshold of an empty
bin is the finite constant `1e9`, not `+∞`; a pixel of value `2·10⁹` would
exceed it, so the parenthetical "no pixel of an empty bin can exceed the
upper threshold" fails. -/
theorem C4_empty_bin_threshold_is_finite :
    qget (computeRadialStats (fun q => q) 1 3 10 ⟨[5], [5], [5], [0]⟩).rthreshold 0 = 10 ^ 9 ∧
    qget (computeRadialStats (fun q => q) 1 3 10 ⟨[5], [5], [5], [0]⟩).rthreshold 0
      < 2 * 10 ^ 9 := by
  constructor
  · rfl
  · show (10 ^ 9 : ℚ) < 2 * 10 ^ 9
    norm_num

/-- Folding `fill_radial_bins` steps leaves the thresholds untouched and
increments `rcount[r]` once per visited pixel that satisfies the
contribution condition (mask non-zero, value below threshold) and falls in
bin `r`. -/
theorem fillRadialBins_fold_rcount (data rMap : List ℚ) (mask : List ℕ)
    (thr : List ℚ) (r : ℕ) :
    ∀ (L : List ℕ) (s : RadialState), s.rthreshold = thr →
    (∀ pidx ∈ L, radialBinIdx rMap pidx < s.rcount.length) →
    (L.foldl (fillRadialBinsStep data rMap mask) s).rthreshold = thr ∧
    nget (L.foldl (fillRadialBinsStep data rMap mask) s).rcount r =
      nget s.rcount r +
        (L.filter (fun pidx => decide (Contributes data rMap mask thr pidx) &&
          decide (radialBinIdx rMap pidx = r))).length := by
  intro L
  induction L with
  | nil => intro s hthr _; simpa using hthr
  | cons a L ih =>
    intro s hthr hbound
    have hba : radialBinIdx rMap a < s.rcount.length := hbound a (by simp)
    by_cases hc : Contributes data rMap mask thr a
    · -- the pixel contributes: the step increments its bin
      have hstep : fillRadialBinsStep data rMap mask s a =
          updateRadialStats s (qget data a) (radialBinIdx rMap a) := by
        unfold fillRadialBinsStep
        rw [if_pos hc.1, if_pos (hthr ▸ hc.2)]
      have hthr' : (updateRadialStats s (qget data a) (radialBinIdx rMap a)).rthreshold = thr := by
        simpa [updateRadialStats] using hthr
      have hlen : (updateRadialStats s (qget data a) (radialBinIdx rMap a)).rcount.length =
          s.rcount.length := by simp [updateRadialStats, List.length_set]
      have hrec := ih (updateRadialStats s (qget data a) (radialBinIdx rMap a)) hthr'
        (fun p hp => by rw [hlen]; exact hbound p (by simp [hp]))
      refine ⟨by simpa [List.foldl_cons, hstep] using hrec.1, ?_⟩
      simp only [List.foldl_cons, hstep]
      rw [hrec.2]
      by_cases hr : radialBinIdx rMap a = r
      · subst hr
        have : nget (updateRadialStats s (qget data a) (radialBinIdx rMap a)).rcount
            (radialBinIdx rMap a) = nget s.rcount (radialBinIdx rMap a) + 1 := by
          simp only [updateRadialStats]
          exact nget_set_eq _ hba
        rw [this, List.filter_cons_of_pos (by simp [hc])]
        simp [Nat.add_comm, Nat.add_assoc, Nat.add_left_comm]
      · have : nget (updateRadialStats s (qget data a) (radialBinIdx rMap a)).rcount r =
            nget s.rcount r := by
          simp only [updateRadialStats]
          exact nget_set_ne _ (Ne.symm hr)
        rw [this, List.filter_cons_of_neg (by simp [hr])]
    · -- the pixel does not contribute: the step is the identity
      have hstep : fillRadialBinsStep data rMap mask s a = s := by
        unfold fillRadialBinsStep
        by_cases hm : nget mask a ≠ 0
        · have hnl : ¬ qget data a < qget thr (radialBinIdx rMap a) :=
            fun hl => hc ⟨hm, hl⟩
          rw [if_pos hm, if_neg (by rw [hthr]; exact hnl)]
        · rw [if_neg hm]
      have hrec := ih s hthr (fun p hp => hbound p (by simp [hp]))
      refine ⟨by simpa [List.foldl_cons, hstep] using hrec.1, ?_⟩
      simp only [List.foldl_cons, hstep]
      rw [hrec.2, List.filter_cons_of_neg (by simp [hc])]

/-- Counterexample to claim C2 as stated: on a 1×1 image whose only pixel
has mask entry 0 (good per the data-model convention) and value 0, below
its bin threshold 1, `fill_radial_bins` does *not* count the pixel into the
radial statistics — the code requires `mask[pidx] != 0`, the inverse of the
dense-mask convention. -/
theorem C2_good_mask_pixel_not_counted :
    ¬ (∀ (data rMap : List ℚ) (mask : List ℕ) (s : RadialState),
        ∀ pidx, pidx < 1 → nget mask pidx = 0 →
          qget data pidx < qget s.rthreshold (radialBinIdx rMap pidx) →
          nget (fillRadialBins 1 1 data rMap mask s).rcount (radialBinIdx rMap pidx) =
            nget s.rcount (radialBinIdx rMap pidx) + 1) := by
  intro h
  have hx := h [0] [0] [0] ⟨[0], [0], [1], [0]⟩ 0 (by decide)
    (by with_unfolding_all decide) (by with_unfolding_all decide)
  exact absurd hx (by with_unfolding_all decide)

/-- Claim C9 (confirmed): every read of `pfinter->peak_pixels` in the
reintegration pass of `process_panel` is within the allocation bound
`max_pix_count` of `allocate_peakfinder_intern_data`.  The hypothesis
`numPixInPeak ≤ maxPixCount` is established by the size gate at
peakfinder8.cpp lines 649-652, which `continue`s whenever
`num_pix_in_peak > max_pix_count`; the loop's redundant `peak_idx <=
max_pix_count` bound (flagged by the in-source comment) therefore never
permits an out-of-bounds read. -/
theorem C9_reintegration_reads_in_bounds (numPixInPeak maxPixCount dataSize : ℕ)
    (h : numPixInPeak ≤ maxPixCount) :
    ∀ i ∈ reintegrationReadIdxs numPixInPeak maxPixCount,
      i < (allocatePeakfinderInternData dataSize maxPixCount).peakPixels.length := by
  intro i hi
  have hmem : i ∈ (List.range numPixInPeak).drop 1 :=
    (List.takeWhile_sublist _).subset hi
  have hrange : i ∈ List.range numPixInPeak := (List.drop_subset 1 _) hmem
  have hlt : i < numPixInPeak := List.mem_range.mp hrange
  have hlen : (allocatePeakfinderInternData dataSize maxPixCount).peakPixels.length
      = maxPixCount := by
    simp [allocatePeakfinderInternData]
  omega

/-- Witness for C9 at `num_pix_in_peak = 3`, `max_pix_count = 5`. -/
theorem C9_reintegration_reads_in_bounds_witness :
    3 ≤ 5 ∧ ∀ i ∈ reintegrationReadIdxs 3 5,
      i < (allocatePeakfinderInternData 4 5).peakPixels.length :=
  ⟨by decide, C9_reintegration_reads_in_bounds 3 5 4 (by decide)⟩

/-- Claim C3 (confirmed): the capacity bound of both peak finders.
First block, local-window finder: `savePeak` maintains
`peakCount ≤ maxPeakCount` and never writes any storage array at an index
`≥ maxPeakCount`.  Second block, radial finder: `peakfinder8` reports
`nPeaks = min(num_found_peaks, max_num_peaks) ≤ max_num_peaks` and its copy
loop only touches indices `< max_num_peaks`.  Third block: the in-scan
append `storePeakStep` of `process_panel` leaves every storage index
`≥ max_n_peaks` untouched (peaks beyond capacity are dropped). -/
theorem C3_capacity_bound :
    (∀ (sb mb : ℚ) (ips : IntermediatePeakStats) (pl : PeakList9),
      pl.peakCount ≤ pl.maxPeakCount →
        (savePeak sb mb ips pl).peakCount ≤ pl.maxPeakCount ∧
        ∀ i, pl.maxPeakCount ≤ i →
          qget (savePeak sb mb ips pl).maxIntensity i = qget pl.maxIntensity i ∧
          qget (savePeak sb mb ips pl).totalIntensity i = qget pl.totalIntensity i ∧
          qget (savePeak sb mb ips pl).sigmaBackground i = qget pl.sigmaBackground i ∧
          qget (savePeak sb mb ips pl).snr i = qget pl.snr i ∧
          qget (savePeak sb mb ips pl).pixelCount i = qget pl.pixelCount i ∧
          qget (savePeak sb mb ips pl).centerOfMassRawX i = qget pl.centerOfMassRawX i ∧
          qget (savePeak sb mb ips pl).centerOfMassRawY i = qget pl.centerOfMassRawY i) ∧
    (∀ numFound maxNum : ℕ,
      pf8PeaksToAdd numFound maxNum ≤ maxNum ∧
      ∀ i ∈ pf8CopyIdxs numFound maxNum, i < maxNum ∨ i < numFound) ∧
    (∀ (maxN : ℕ) (st : PF8Stores) (numPix : ℕ) (cf cs : ℚ) (ci : ℤ)
        (ti mi sg sn : ℚ),
      ∀ i, maxN ≤ i →
        nget (storePeakStep maxN st numPix cf cs ci ti mi sg sn).npix i = nget st.npix i ∧
        qget (storePeakStep maxN st numPix cf cs ci ti mi sg sn).comFs i = qget st.comFs i ∧
        qget (storePeakStep maxN st numPix cf cs ci ti mi sg sn).comSs i = qget st.comSs i ∧
        zget (storePeakStep maxN st numPix cf cs ci ti mi sg sn).comIndex i = zget st.comIndex i ∧
        qget (storePeakStep maxN st numPix cf cs ci ti mi sg sn).totI i = qget st.totI i ∧
        qget (storePeakStep maxN st numPix cf cs ci ti mi sg sn).maxI i = qget st.maxI i ∧
        qget (storePeakStep maxN st numPix cf cs ci ti mi sg sn).sigma i = qget st.sigma i ∧
        qget (storePeakStep maxN st numPix cf cs ci ti mi sg sn).snr i = qget st.snr i) := by
  refine ⟨?_, ?_, ?_⟩
  · intro sb mb ips pl hle
    unfold savePeak
    by_cases hlt : pl.peakCount < pl.maxPeakCount
    · rw [if_pos hlt]
      refine ⟨show pl.peakCount + 1 ≤ pl.maxPeakCount by omega, ?_⟩
      intro i hi
      have hne : i ≠ pl.peakCount := by omega
      exact ⟨qget_set_ne _ hne, qget_set_ne _ hne, qget_set_ne _ hne,
        qget_set_ne _ hne, qget_set_ne _ hne, qget_set_ne _ hne, qget_set_ne _ hne⟩
    · rw [if_neg hlt]
      exact ⟨hle, fun i _ => ⟨rfl, rfl, rfl, rfl, rfl, rfl, rfl⟩⟩
  · intro numFound maxNum
    constructor
    · unfold pf8PeaksToAdd
      split <;> omega
    · intro i hi
      unfold pf8CopyIdxs pf8PeaksToAdd at hi
      rcases List.mem_range.mp hi with h
      split at h <;> omega
  · intro maxN st numPix cf cs ci ti mi sg sn i hi
    unfold storePeakStep
    by_cases hlt : st.peakCount < maxN
    · rw [if_pos hlt]
      have hne : i ≠ st.peakCount := by omega
      exact ⟨nget_set_ne _ hne, qget_set_ne _ hne, qget_set_ne _ hne,
        zget_set_ne _ hne, qget_set_ne _ hne, qget_set_ne _ hne,
        qget_set_ne _ hne, qget_set_ne _ hne⟩
    · rw [if_neg hlt]
      exact ⟨rfl, rfl, rfl, rfl, rfl, rfl, rfl, rfl⟩

/-- Witness for C3 at a concrete one-slot peak list that is already full:
the counter stays at capacity and the stored record is untouched. -/
theorem C3_capacity_bound_witness :
    ((1 : ℕ) ≤ 1 ∧
      (savePeak 1 0 ⟨10, 5, 5, 10, 2⟩
        ⟨1, 1, [7], [7], [7], [7], [7], [7], [7]⟩).peakCount ≤ 1) ∧
    pf8PeaksToAdd 7 3 ≤ 3 ∧
    ((2 : ℕ) ≤ 2 ∧
      nget (storePeakStep 2 ⟨2, [4, 4], [4, 4], [4, 4], [4, 4], [4, 4], [4, 4],
        [4, 4], [4, 4]⟩ 9 1 1 1 1 1 1 1).npix 2 =
        nget ([4, 4] : List ℕ) 2) := by
  have h := C3_capacity_bound
  refine ⟨⟨by decide, ?_⟩, (h.2.1 7 3).1, by decide, ?_⟩
  · exact (h.1 1 0 ⟨10, 5, 5, 10, 2⟩ ⟨1, 1, [7], [7], [7], [7], [7], [7], [7]⟩
      (by decide)).1
  · exact (h.2.2 2 ⟨2, [4, 4], [4, 4], [4, 4], [4, 4], [4, 4], [4, 4], [4, 4], [4, 4]⟩
      9 1 1 1 1 1 1 1 2 (by decide)).1

/-- One stencil entry of `peak_search` marks a pixel into
`pix_in_peak_map` only when its acceptance condition — which requires
`mask[pi] != 0` — holds. -/
theorem peakSearchStep_mark (a : PanelArgs) (p : ℕ) (st : FloodState)
    (off : ℤ × ℤ) (pix : ℕ)
    (hch : nget (peakSearchStep a p st off).intern.pixInPeakMap pix ≠
      nget st.intern.pixInPeakMap pix) :
    nget a.mask pix ≠ 0 := by
  unfold peakSearchStep at hch
  split at hch
  · exact absurd rfl hch
  · split at hch
    case isTrue hacc =>
      by_cases he : pix = stencilPix a p st off
      · subst he
        exact hacc.2.2
      · exact absurd (nget_set_ne 1 he) hch
    case isFalse h => exact absurd rfl hch

/-- `peak_search` marks a pixel into `pix_in_peak_map` only when
`mask[pi] != 0`. -/
theorem peakSearch_mark (a : PanelArgs) (p : ℕ) :
    ∀ (L : List (ℤ × ℤ)) (st : FloodState) (pix : ℕ),
      nget (L.foldl (peakSearchStep a p) st).intern.pixInPeakMap pix ≠
        nget st.intern.pixInPeakMap pix →
      nget a.mask pix ≠ 0 := by
  intro L
  induction L with
  | nil => intro st pix hch; exact absurd rfl hch
  | cons off L ih =>
    intro st pix hch
    simp only [List.foldl_cons] at hch
    by_cases hmid : nget (L.foldl (peakSearchStep a p) (peakSearchStep a p st off)).intern.pixInPeakMap pix =
        nget (peakSearchStep a p st off).intern.pixInPeakMap pix
    · exact peakSearchStep_mark a p st off pix (fun h => hch (hmid.trans h))
    · exact ih (peakSearchStep a p st off) pix hmid

/-- Claim C2 (amended): `find_peaks_radial` uses the *inverse* of the
data model's dense-mask convention.  First part: after `fill_radial_bins`,
`rcount[r]` has grown by exactly the number of pixels satisfying the code's
contribution condition `mask[pidx] != 0 ∧ value < threshold` in bin `r` —
so pixels with mask entry 0 are excluded from the radial statistics and
pixels with non-zero mask entry are the eligible ones.  Second part: a
pixel can be marked into a peak by `peak_search` only when its mask entry
is non-zero. -/
theorem C2_mask_convention_is_inverted :
    (∀ (w h : ℕ) (data rMap : List ℚ) (mask : List ℕ) (s : RadialState) (r : ℕ),
      (∀ pidx ∈ List.range (h * w), radialBinIdx rMap pidx < s.rcount.length) →
      nget (fillRadialBins w h data rMap mask s).rcount r =
        nget s.rcount r + ((List.range (h * w)).filter (fun pidx =>
          decide (Contributes data rMap mask s.rthreshold pidx) &&
          decide (radialBinIdx rMap pidx = r))).length) ∧
    (∀ (a : PanelArgs) (p : ℕ) (st : FloodState) (pix : ℕ),
      nget (peakSearch a p st).intern.pixInPeakMap pix ≠
        nget st.intern.pixInPeakMap pix →
      nget a.mask pix ≠ 0) := by
  constructor
  · intro w h data rMap mask s r hb
    exact (fillRadialBins_fold_rcount data rMap mask s.rthreshold r
      (List.range (h * w)) s rfl hb).2
  · intro a p st pix hch
    have he : peakSearch a p st = searchOffsets.foldl (peakSearchStep a p) st := rfl
    rw [he] at hch
    exact peakSearch_mark a p searchOffsets st pix hch

set_option maxHeartbeats 2000000 in
set_option maxRecDepth 100000 in
/-- Witness for C2's amended theorem: a 1×1 image whose pixel has the
non-zero mask entry demanded by this code and value 0 below threshold 1 is
counted (count goes 0 → 1), and the concrete stencil step that marks pixel
0 into a peak sees a non-zero mask entry there. -/
theorem C2_mask_convention_is_inverted_witness :
    (nget (fillRadialBins 1 1 [0] [0] [1] ⟨[0], [0], [1], [0]⟩).rcount 0 =
      nget ([0] : List ℕ) 0 + ((List.range (1 * 1)).filter (fun pidx =>
        decide (Contributes [0] [0] [1] [1] pidx) &&
        decide (radialBinIdx [0] pidx = 0))).length) ∧
    nget (⟨5, 5, 5, 0, 0, [1], [0], [5], [0], [1], 1, 10, 1, 0, 1⟩ : PanelArgs).mask 0 ≠ 0 := by
  have h := C2_mask_convention_is_inverted
  constructor
  · exact h.1 1 1 [0] [0] [1] ⟨[0], [0], [1], [0]⟩ 0 (by with_unfolding_all decide)
  · refine h.2 ⟨5, 5, 5, 0, 0, [1], [0], [5], [0], [1], 1, 10, 1, 0, 1⟩ 0
      ⟨allocatePeakfinderInternData 1 1, 1, 0, 0, 0⟩ 0 ?_
    with_unfolding_all decide

/-- Each raster step of `process_panel` records exactly its own pixel in
the examined trace, regardless of the peak-count state. -/
theorem processPanelStep_examined (sqrtQ : ℚ → ℚ) (a : PanelArgs) (fuel : ℕ)
    (st : PanelState) (px : ℕ × ℕ) :
    (processPanelStep sqrtQ a fuel st px).examined = st.examined ++ [panelPixIdx a px] := by
  unfold processPanelStep
  dsimp only
  repeat' split
  all_goals rfl

/-- The raster scan of `process_panel` examines every interior pixel:
the examined trace grows by the full interior raster, independently of the
storage state, the peak counter and `max_n_peaks`. -/
theorem processPanel_examined_all (sqrtQ : ℚ → ℚ) (a : PanelArgs) (fuel : ℕ) :
    ∀ st : PanelState, (processPanel sqrtQ a fuel st).examined =
      st.examined ++ (interiorRaster a.asicSizeSs a.asicSizeFs).map (panelPixIdx a) := by
  unfold processPanel
  generalize interiorRaster a.asicSizeSs a.asicSizeFs = L
  induction L with
  | nil => intro st; simp
  | cons px L ih =>
    intro st
    simp only [List.foldl_cons, List.map_cons]
    rw [ih (processPanelStep sqrtQ a fuel st px), processPanelStep_examined]
    simp

/-- Claim C8 (amended): `find_peaks_radial` has no early exit at
`max_num_peaks`.  First part: the raster scan of `process_panel` examines
every interior pixel of the panel whatever the state of the peak list.
Second part: once the counter has reached `max_n_peaks`, an accepted peak
still increments the counter — only the storage write is dropped (the
state changes exactly by `peak_count + 1`). -/
theorem C8_no_early_exit :
    (∀ (sqrtQ : ℚ → ℚ) (a : PanelArgs) (fuel : ℕ) (st : PanelState),
      (processPanel sqrtQ a fuel st).examined =
        st.examined ++ (interiorRaster a.asicSizeSs a.asicSizeFs).map (panelPixIdx a)) ∧
    (∀ (maxN : ℕ) (st : PF8Stores) (numPix : ℕ) (cf cs : ℚ) (ci : ℤ)
        (ti mi sg sn : ℚ), maxN ≤ st.peakCount →
      storePeakStep maxN st numPix cf cs ci ti mi sg sn =
        { st with peakCount := st.peakCount + 1 }) := by
  constructor
  · intro sqrtQ a fuel st
    exact processPanel_examined_all sqrtQ a fuel st
  · intro maxN st numPix cf cs ci ti mi sg sn hfull
    unfold storePeakStep
    rw [if_neg (by omega)]

/-- Witness for C8's amended theorem: the two-peak scenario examines all
nine interior pixels, and a full one-slot store still has its counter
incremented by a further accepted peak. -/
theorem C8_no_early_exit_witness :
    ((processPanel (fun q => q) c8Args 30 c8State0).examined =
      [] ++ (interiorRaster 5 5).map (panelPixIdx c8Args)) ∧
    ((1 : ℕ) ≤ 1 ∧
      storePeakStep 1 ⟨1, [9], [9], [9], [9], [9], [9], [9], [9]⟩ 2 1 1 1 1 1 1 1 =
        ⟨2, [9], [9], [9], [9], [9], [9], [9], [9]⟩) := by
  have h := C8_no_early_exit
  refine ⟨h.1 (fun q => q) c8Args 30 c8State0, by decide, ?_⟩
  exact h.2 1 ⟨1, [9], [9], [9], [9], [9], [9], [9], [9]⟩ 2 1 1 1 1 1 1 1 (by decide)

set_option maxHeartbeats 4000000 in
set_option maxRecDepth 100000 in
/-- Counterexample to claim C8 as stated: in the two-bright-pixel scenario
with `max_num_peaks = 1`, the second candidate is still examined and
flood-filled after the stored peak count has reached the capacity, and the
internal found-peak counter ends at 2 > 1 — the code has no early exit
(storage writes are merely dropped; peakfinder8.cpp lines 771-772 increment
the counter in the over-capacity branch). -/
theorem C8_counter_increments_past_capacity :
    (processPanel (fun q => q) c8Args 30 c8State0).stores.peakCount = 2 ∧
    c8Args.maxNPeaks = 1 ∧
    ¬ ((processPanel (fun q => q) c8Args 30 c8State0).stores.peakCount ≤
        c8Args.maxNPeaks) := by
  have h1 : (processPanel (fun q => q) c8Args 30 c8State0).stores.peakCount = 2 := by
    with_unfolding_all decide
  refine ⟨h1, rfl, ?_⟩
  rw [h1]
  decide

set_option maxHeartbeats 2000000 in
set_option maxRecDepth 100000 in
/-- Claim C5 (code bug): `applyRadialRankFilterBackgroundSubtraction` does
*not* leave sentinel pixels untouched.  Its guard (line 118) skips pixels
equal to positive `FLT_MAX`, not the masked-pixel sentinel `-FLT_MAX`; on a
fully sentinel-valued image the centre pixel — which held the sentinel —
has the (sentinel-valued) interpolated background subtracted and ends at
0, destroying the mask marker. -/
theorem C5_sentinel_pixel_not_left_untouched :
    qget c5Data 4 = -FLT_MAX_Q ∧
    qget (applyRadialRankFilterBackgroundSubtraction c5PC 3 c5Data) 4 = 0 ∧
    (0 : ℚ) ≠ -FLT_MAX_Q := by
  refine ⟨by with_unfolding_all rfl, by with_unfolding_all rfl, ?_⟩
  intro h
  have h2 : (0 : ℚ) = -(2 ^ 128 - 2 ^ 104) := h
  norm_num at h2

/-- Accessing the `i`-th entry of a map over `List.range n` yields `f i`. -/
theorem getD_map_range {α : Type} (f : ℕ → α) (n i : ℕ) (d : α) (h : i < n) :
    ((List.range n).map f).getD i d = f i := by
  simp [List.getD_eq_getElem?_getD, List.getElem?_map, List.getElem?_range h]

/-- Counterexample to claim C7 as stated: on the all-zero 2×2 position map
the derived fast-scan and slow-scan basis vectors of the single panel are
both zero, yet `build_geometry` succeeds — the source performs no check and
has no failure path, so no `BadGeometry` error is raised. -/
theorem C7_zero_basis_geometry_accepted :
    (((computeDetectorPositionsFromDetectorGeometryMatrix (fun _ => 0)
        (fun _ => 0) (fun _ => 0) (fun _ => 0) c7Raw c7M).getD 0 []).getD 0 dp0).fs =
      ⟨0, 0⟩ ∧
    (((computeDetectorPositionsFromDetectorGeometryMatrix (fun _ => 0)
        (fun _ => 0) (fun _ => 0) (fun _ => 0) c7Raw c7M).getD 0 []).getD 0 dp0).ss =
      ⟨0, 0⟩ ∧
    (build_geometry (fun _ => 0) (fun _ => 0) (fun _ => 0) (fun _ => 0)
        c7Raw c7M).isOk = true := by
  refine ⟨?_, ?_, rfl⟩
  · with_unfolding_all rfl
  · with_unfolding_all rfl

/-- Claim C7 (amended): `build_geometry` performs no validation and never
fails: for every input it returns the panel table, whose entry at
`[asic_y][asic_x]` is the record computed by the loop body — bounds
`[asic_x·asic_nx .. (asic_x+1)·asic_nx - 1] ×
[asic_y·asic_ny .. (asic_y+1)·asic_ny - 1]` and basis vectors derived from
adjacent position-map entries — with no non-finiteness or zero-basis
check anywhere. -/
theorem C7_build_geometry_total (sqrtQ acosQ cosQ sinQ : ℚ → ℚ)
    (raw : DetectorRawFormatQ) (m : List Vec2Q) (ay ax : ℕ)
    (hy : ay < raw.nasicsY) (hx : ax < raw.nasicsX) :
    build_geometry sqrtQ acosQ cosQ sinQ raw m =
      Except.ok (computeDetectorPositionsFromDetectorGeometryMatrix
        sqrtQ acosQ cosQ sinQ raw m) ∧
    (((computeDetectorPositionsFromDetectorGeometryMatrix
        sqrtQ acosQ cosQ sinQ raw m).getD ay []).getD ax dp0 =
      computePanel sqrtQ acosQ cosQ sinQ raw m ax ay) ∧
    (computePanel sqrtQ acosQ cosQ sinQ raw m ax ay).minFs = ax * raw.asicNx ∧
    (computePanel sqrtQ acosQ cosQ sinQ raw m ax ay).minSs = ay * raw.asicNy ∧
    (computePanel sqrtQ acosQ cosQ sinQ raw m ax ay).maxFs =
      (ax + 1) * raw.asicNx - 1 ∧
    (computePanel sqrtQ acosQ cosQ sinQ raw m ax ay).maxSs =
      (ay + 1) * raw.asicNy - 1 ∧
    (computePanel sqrtQ acosQ cosQ sinQ raw m ax ay).fs =
      vsub (geomAt m raw.pixNx (ay * raw.asicNy) (ax * raw.asicNx + 1))
        (geomAt m raw.pixNx (ay * raw.asicNy) (ax * raw.asicNx)) ∧
    (computePanel sqrtQ acosQ cosQ sinQ raw m ax ay).ss =
      vsub (geomAt m raw.pixNx (ay * raw.asicNy + 1) (ax * raw.asicNx))
        (geomAt m raw.pixNx (ay * raw.asicNy) (ax * raw.asicNx)) := by
  refine ⟨rfl, ?_, rfl, rfl, rfl, rfl, rfl, rfl⟩
  unfold computeDetectorPositionsFromDetectorGeometryMatrix
  rw [getD_map_range _ raw.nasicsY ay [] hy, getD_map_range _ raw.nasicsX ax dp0 hx]

/-- Witness for C7's amended theorem at the degenerate scenario. -/
theorem C7_build_geometry_total_witness :
    0 < 1 ∧
    build_geometry (fun _ => 0) (fun _ => 0) (fun _ => 0) (fun _ => 0) c7Raw c7M =
      Except.ok (computeDetectorPositionsFromDetectorGeometryMatrix
        (fun _ => 0) (fun _ => 0) (fun _ => 0) (fun _ => 0) c7Raw c7M) :=
  ⟨by decide,
    (C7_build_geometry_total (fun _ => 0) (fun _ => 0) (fun _ => 0) (fun _ => 0)
      c7Raw c7M 0 0 (by decide) (by decide)).1⟩

/-! Helper lemmas for the radial-bin invariants. -/

/-- Every completed (closed-off) bin of the `fillBins` sweep satisfies both
minima: a bin is closed exactly when the sweep condition fails, i.e. when
its count has reached `minValuesPerBin` and its span has reached
`minBinWidth`. -/
theorem fillBins_completed_invariant (minV : ℕ) (minW : ℚ) :
    ∀ (L : List ℚ) (acc : List (List ℚ) × List ℚ),
      (∀ b ∈ acc.1, minV ≤ b.length ∧ minW ≤ b.getLastD 0 - b.headD 0) →
      ∀ b ∈ (L.foldl (fillBinsStep minV minW) acc).1,
        minV ≤ b.length ∧ minW ≤ b.getLastD 0 - b.headD 0 := by
  intro L
  induction L with
  | nil => intro acc h; simpa using h
  | cons r L ih =>
    intro acc h
    simp only [List.foldl_cons]
    apply ih
    unfold fillBinsStep
    split
    case isTrue hc => exact h
    case isFalse hc =>
      push_neg at hc
      intro b hb
      rcases List.mem_append.mp hb with hb | hb
      · exact h b hb
      · have : b = acc.2 := by simpa using hb
        subst this
        exact ⟨hc.1, hc.2⟩

/-- One `fillBins` step appends its radius at the end of the flattened
bins. -/
theorem fillBinsStep_flatten (minV : ℕ) (minW : ℚ)
    (acc : List (List ℚ) × List ℚ) (r : ℚ) :
    ((fillBinsStep minV minW acc r).1 ++ [(fillBinsStep minV minW acc r).2]).flatten =
      (acc.1 ++ [acc.2]).flatten ++ [r] := by
  unfold fillBinsStep
  split <;> simp

/-- The `fillBins` sweep partitions its input in order: flattening the bins
recovers the radii list. -/
theorem fillBins_fold_flatten (minV : ℕ) (minW : ℚ) :
    ∀ (L : List ℚ) (acc : List (List ℚ) × List ℚ),
      ((L.foldl (fillBinsStep minV minW) acc).1 ++
        [(L.foldl (fillBinsStep minV minW) acc).2]).flatten =
      (acc.1 ++ [acc.2]).flatten ++ L := by
  intro L
  induction L with
  | nil => intro acc; simp
  | cons r L ih =>
    intro acc
    simp only [List.foldl_cons]
    rw [ih (fillBinsStep minV minW acc r), fillBinsStep_flatten]
    simp

/-- Flattening `fillBins` recovers the input radii list. -/
theorem fillBins_flatten (minV : ℕ) (minW : ℚ) (l : List ℚ) :
    (fillBins minV minW l).flatten = l := by
  unfold fillBins fillBinsAcc
  rw [fillBins_fold_flatten]
  simp

/-- On a sorted radii list, the bins of `fillBins` are cross-ordered:
every element of an earlier bin is at most every element of a later bin. -/
theorem fillBins_pairwise (minV : ℕ) (minW : ℚ) (l : List ℚ)
    (hs : l.Sorted (· ≤ ·)) :
    (fillBins minV minW l).Pairwise (fun b₁ b₂ => ∀ x ∈ b₁, ∀ y ∈ b₂, x ≤ y) := by
  have hflat : (fillBins minV minW l).flatten.Pairwise (· ≤ ·) := by
    rw [fillBins_flatten]; exact hs
  exact (List.pairwise_flatten.mp hflat).2

/-- Cross-ordered sums: when every element of `b₁` is at most every
element of `b₂`, `Σb₁ · |b₂| ≤ Σb₂ · |b₁|`. -/
theorem sum_mul_length_le (b₂ : List ℚ) :
    ∀ b₁ : List ℚ, (∀ x ∈ b₁, ∀ y ∈ b₂, x ≤ y) →
      b₁.sum * (b₂.length : ℚ) ≤ b₂.sum * (b₁.length : ℚ) := by
  intro b₁
  induction b₁ with
  | nil => intro _; simp
  | cons x xs ih =>
    intro hc
    have hx : (b₂.length : ℚ) * x ≤ b₂.sum := by
      have := List.card_nsmul_le_sum b₂ x (fun y hy => hc x (by simp) y hy)
      simpa [nsmul_eq_mul] using this
    have ihs := ih (fun z hz y hy => hc z (by simp [hz]) y hy)
    have hexp : (x :: xs).sum * (b₂.length : ℚ) =
        (b₂.length : ℚ) * x + xs.sum * (b₂.length : ℚ) := by
      simp [List.sum_cons]; ring
    have hlen : ((x :: xs).length : ℚ) = (xs.length : ℚ) + 1 := by
      simp [List.length_cons]
    rw [hexp, hlen]
    have : b₂.sum * ((xs.length : ℚ) + 1) = b₂.sum + b₂.sum * (xs.length : ℚ) := by ring
    rw [this]
    linarith

/-- Mean monotonicity across cross-ordered non-empty bins. -/
theorem listMean_le_listMean {b₁ b₂ : List ℚ} (h₁ : b₁ ≠ []) (h₂ : b₂ ≠ [])
    (hc : ∀ x ∈ b₁, ∀ y ∈ b₂, x ≤ y) : listMean b₁ ≤ listMean b₂ := by
  have hl₁ : (0 : ℚ) < (b₁.length : ℚ) := by
    have := List.length_pos.mpr h₁
    exact_mod_cast this
  have hl₂ : (0 : ℚ) < (b₂.length : ℚ) := by
    have := List.length_pos.mpr h₂
    exact_mod_cast this
  unfold listMean
  rw [div_le_div_iff₀ hl₁ hl₂]
  exact sum_mul_length_le b₂ b₁ hc

/-- A min-fold is bounded by its initial value. -/
theorem foldl_min_le_init : ∀ (b : List ℚ) (mn : ℚ), b.foldl min mn ≤ mn := by
  intro b
  induction b with
  | nil => intro mn; exact le_refl mn
  | cons y ys ih =>
    intro mn
    exact le_trans (ih (min mn y)) (min_le_left mn y)

/-- A min-fold is bounded by every list element. -/
theorem foldl_min_le_mem : ∀ (b : List ℚ) (mn x : ℚ), x ∈ b → b.foldl min mn ≤ x := by
  intro b
  induction b with
  | nil => intro mn x hx; cases hx
  | cons y ys ih =>
    intro mn x hx
    rcases List.mem_cons.mp hx with h | h
    · subst h
      exact le_trans (foldl_min_le_init ys (min mn x)) (min_le_right mn x)
    · exact ih (min mn y) x h

/-- A max-fold dominates its initial value. -/
theorem init_le_foldl_max : ∀ (b : List ℚ) (mx : ℚ), mx ≤ b.foldl max mx := by
  intro b
  induction b with
  | nil => intro mx; exact le_refl mx
  | cons y ys ih =>
    intro mx
    exact le_trans (le_max_left mx y) (ih (max mx y))

/-- A max-fold dominates every list element. -/
theorem mem_le_foldl_max : ∀ (b : List ℚ) (mx x : ℚ), x ∈ b → x ≤ b.foldl max mx := by
  intro b
  induction b with
  | nil => intro mx x hx; cases hx
  | cons y ys ih =>
    intro mx x hx
    rcases List.mem_cons.mp hx with h | h
    · subst h
      exact le_trans (le_max_right mx x) (init_le_foldl_max ys (max mx x))
    · exact ih (max mx y) x h

/-- The double min-fold of `computeBinRadii` is bounded by its initial
value. -/
theorem binsFoldMin_le_init :
    ∀ (bins : List (List ℚ)) (mn : ℚ),
      bins.foldl (fun m bb => bb.foldl min m) mn ≤ mn := by
  intro bins
  induction bins with
  | nil => intro mn; exact le_refl mn
  | cons c cs ih =>
    intro mn
    simp only [List.foldl_cons]
    exact le_trans (ih (c.foldl min mn)) (foldl_min_le_init c mn)

/-- The double min-fold of `computeBinRadii` is bounded by every element
of every bin. -/
theorem binsFoldMin_le_mem :
    ∀ (bins : List (List ℚ)) (mn : ℚ) (b : List ℚ) (x : ℚ),
      b ∈ bins → x ∈ b → bins.foldl (fun m bb => bb.foldl min m) mn ≤ x := by
  intro bins
  induction bins with
  | nil => intro mn b x hb _; cases hb
  | cons c cs ih =>
    intro mn b x hb hx
    simp only [List.foldl_cons]
    rcases List.mem_cons.mp hb with h | h
    · subst h
      exact le_trans (binsFoldMin_le_init cs (b.foldl min mn))
        (foldl_min_le_mem b mn x hx)
    · exact ih (c.foldl min mn) b x h hx

/-- The global minimum of `computeBinRadii` bounds every element of every
bin. -/
theorem binsMinRadius_le (bins : List (List ℚ)) (b : List ℚ) (x : ℚ)
    (hb : b ∈ bins) (hx : x ∈ b) : binsMinRadius bins ≤ x :=
  binsFoldMin_le_mem bins FLT_MAX_Q b x hb hx

/-- The double max-fold of `computeBinRadii` dominates its initial value. -/
theorem init_le_binsFoldMax :
    ∀ (bins : List (List ℚ)) (mx : ℚ),
      mx ≤ bins.foldl (fun m bb => bb.foldl max m) mx := by
  intro bins
  induction bins with
  | nil => intro mx; exact le_refl mx
  | cons c cs ih =>
    intro mx
    simp only [List.foldl_cons]
    exact le_trans (init_le_foldl_max c mx) (ih (c.foldl max mx))

/-- The double max-fold of `computeBinRadii` dominates every element of
every bin. -/
theorem mem_le_binsFoldMax :
    ∀ (bins : List (List ℚ)) (mx : ℚ) (b : List ℚ) (x : ℚ),
      b ∈ bins → x ∈ b → x ≤ bins.foldl (fun m bb => bb.foldl max m) mx := by
  intro bins
  induction bins with
  | nil => intro mx b x hb _; cases hb
  | cons c cs ih =>
    intro mx b x hb hx
    simp only [List.foldl_cons]
    rcases List.mem_cons.mp hb with h | h
    · subst h
      exact le_trans (mem_le_foldl_max b mx x hx)
        (init_le_binsFoldMax cs (b.foldl max mx))
    · exact ih (c.foldl max mx) b x h hx

/-- The global maximum of `computeBinRadii` dominates every element of
every bin. -/
theorem le_binsMaxRadius (bins : List (List ℚ)) (b : List ℚ) (x : ℚ)
    (hb : b ∈ bins) (hx : x ∈ b) : x ≤ binsMaxRadius bins :=
  mem_le_binsFoldMax bins 0 b x hb hx

/-- The global minimum of `computeBinRadii` is at most the mean of every
non-empty bin. -/
theorem binsMin_le_listMean (bins : List (List ℚ)) (b : List ℚ)
    (hb : b ∈ bins) (hne : b ≠ []) : binsMinRadius bins ≤ listMean b := by
  have hl : (0 : ℚ) < (b.length : ℚ) := by
    exact_mod_cast List.length_pos.mpr hne
  have hs := List.card_nsmul_le_sum b (binsMinRadius bins)
    (fun x hx => binsMinRadius_le bins b x hb hx)
  rw [nsmul_eq_mul] at hs
  unfold listMean
  rw [le_div_iff₀ hl]
  linarith

/-- The mean of every non-empty bin is at most the global maximum of
`computeBinRadii`. -/
theorem listMean_le_binsMax (bins : List (List ℚ)) (b : List ℚ)
    (hb : b ∈ bins) (hne : b ≠ []) : listMean b ≤ binsMaxRadius bins := by
  have hl : (0 : ℚ) < (b.length : ℚ) := by
    exact_mod_cast List.length_pos.mpr hne
  have hs := List.sum_le_card_nsmul b (binsMaxRadius bins)
    (fun x hx => le_binsMaxRadius bins b x hb hx)
  rw [nsmul_eq_mul] at hs
  unfold listMean
  rw [div_le_iff₀ hl]
  linarith

/-- A `Forall₂` relation pairs every left member with some right member. -/
theorem forall₂_exists_right {α β : Type} {S : β → α → Prop} :
    ∀ {l' : List β} {l : List α}, List.Forall₂ S l' l →
      ∀ b' ∈ l', ∃ b ∈ l, S b' b := by
  intro l' l h
  induction h with
  | nil => intro b' hb'; cases hb'
  | cons hS hf ih =>
    intro b' hb'
    rcases List.mem_cons.mp hb' with h' | h'
    · subst h'
      exact ⟨_, by simp, hS⟩
    · obtain ⟨b, hb, hSb⟩ := ih b' h'
      exact ⟨b, by simp [hb], hSb⟩

/-- Transfer a chain along a `Forall₂` relation: if consecutive members of
`l` are `R`-related and each member of `l'` is `S`-related to the
corresponding member of `l`, a compatibility rule yields a chain on `l'`. -/
theorem chain'_transfer {α β : Type} {R : α → α → Prop} {S : β → α → Prop}
    {T : β → β → Prop}
    (hcompat : ∀ a' a b' b, S a' a → S b' b → R a b → T a' b') :
    ∀ {l' : List β} {l : List α}, List.Forall₂ S l' l →
      List.Chain' R l → List.Chain' T l' := by
  intro l' l hf
  induction hf with
  | nil => intro _; exact List.chain'_nil
  | cons hS hf ih =>
    intro hch
    have hch' := List.chain'_cons'.mp hch
    refine List.chain'_cons'.mpr ⟨?_, ih hch'.2⟩
    intro y' hy'
    cases hf with
    | nil => simp at hy'
    | cons hS₂ hf₂ =>
      simp only [List.head?_cons, Option.mem_def, Option.some.injEq] at hy'
      subst hy'
      exact hcompat _ _ _ _ hS hS₂ (hch'.1 _ (by simp))

/-- Claim C6 (amended): after `build_radial_bins`, every *completed*
non-sentinel bin (all but the possibly still-open last one) has at least
`min_values_per_bin` contributors and a radius span of at least
`min_bin_width`; and the sequence of representative bin radii produced by
`computeBinRadii` — global minimum, per-bin means, global maximum — is
non-decreasing for every choice of non-empty per-bin subsets (which covers
the angular thinning of `thinOutBins` as well as the un-thinned bins
themselves). -/
theorem C6_bin_invariants (minV : ℕ) (minW : ℚ) (mask : List ℕ)
    (rMap : List ℚ) (pixNx : ℕ) (rects : List PanelRect) (_hm : 1 ≤ minV) :
    (∀ b ∈ (fillBinsAcc minV minW
        ((gatherAvailableRadii mask rMap pixNx rects).insertionSort (· ≤ ·))).1,
      minV ≤ b.length ∧ minW ≤ b.getLastD 0 - b.headD 0) ∧
    (∀ bins' : List (List ℚ),
      List.Forall₂ (fun b' b => b' ≠ [] ∧ b' ⊆ b) bins'
        (buildRadialBinsBins minV minW mask rMap pixNx rects) →
      List.Chain' (· ≤ ·) (computeBinRadii bins')) := by
  constructor
  · exact fillBins_completed_invariant minV minW _ ([], [])
      (by intro b hb; cases hb)
  · intro bins' hf
    have hs : ((gatherAvailableRadii mask rMap pixNx rects).insertionSort
        (· ≤ ·)).Sorted (· ≤ ·) := List.sorted_insertionSort (· ≤ ·) _
    have hpw := fillBins_pairwise minV minW _ hs
    have hchain' : List.Chain' (fun b₁ b₂ => listMean b₁ ≤ listMean b₂) bins' := by
      refine chain'_transfer ?_ hf hpw.chain'
      intro a' a b' b hSa hSb hR
      exact listMean_le_listMean hSa.1 hSb.1
        (fun x hx y hy => hR x (hSa.2 hx) y (hSb.2 hy))
    have hmem_ne : ∀ b' ∈ bins', b' ≠ [] := by
      intro b' hb'
      obtain ⟨b, _, hS⟩ := forall₂_exists_right hf b' hb'
      exact hS.1
    have hne : bins' ≠ [] := by
      intro h0
      have hlen := hf.length_eq
      rw [h0] at hlen
      have : buildRadialBinsBins minV minW mask rMap pixNx rects = [] :=
        List.length_eq_zero.mp hlen.symm
      have h1 : (fillBinsAcc minV minW ((gatherAvailableRadii mask rMap pixNx
          rects).insertionSort (· ≤ ·))).1 ++
          [(fillBinsAcc minV minW ((gatherAvailableRadii mask rMap pixNx
          rects).insertionSort (· ≤ ·))).2] = [] := this
      simpa using congrArg List.length h1
    unfold computeBinRadii
    rw [List.chain'_cons']
    constructor
    · intro y hy
      rcases hb0 : bins' with _ | ⟨b0, rest⟩
      · exact absurd hb0 hne
      · rw [hb0] at hy
        simp only [List.map_cons, List.cons_append, List.head?_cons,
          Option.mem_def, Option.some.injEq] at hy
        subst hy
        exact binsMin_le_listMean (b0 :: rest) b0 (by simp)
          (hmem_ne b0 (by rw [hb0]; simp))
    · rw [List.chain'_append]
      refine ⟨(List.chain'_map listMean).mpr hchain', List.chain'_singleton _, ?_⟩
      intro x hx y hy
      simp only [List.head?_cons, Option.mem_def, Option.some.injEq] at hy
      subst hy
      obtain ⟨hlast, hxeq⟩ := List.mem_getLast?_eq_getLast hx
      have hxmem : x ∈ bins'.map listMean := by
        rw [hxeq]; exact List.getLast_mem hlast
      obtain ⟨b, hb, hxe⟩ := List.mem_map.mp hxmem
      rw [← hxe]
      exact listMean_le_binsMax bins' b hb (hmem_ne b hb)

/-- Witness for C6's amended theorem on a 4×4 one-panel configuration with
interior radii 1, 2, 3, 4, `min_values_per_bin = 2`, `min_bin_width = 0`:
the sweep yields the bins `[[1,2],[3,4]]`, whose completed bin `[1,2]`
meets both minima, and the representative radii are non-decreasing. -/
theorem C6_bin_invariants_witness :
    (1 : ℕ) ≤ 2 ∧
    (∀ b ∈ (fillBinsAcc 2 0 ((gatherAvailableRadii c6Mask c6RMap 4
        [⟨0, 0, 3, 3⟩]).insertionSort (· ≤ ·))).1,
      2 ≤ b.length ∧ (0 : ℚ) ≤ b.getLastD 0 - b.headD 0) ∧
    List.Chain' (· ≤ ·) (computeBinRadii [[1, 2], [3, 4]]) := by
  have h := C6_bin_invariants 2 0 c6Mask c6RMap 4 [⟨0, 0, 3, 3⟩] (by decide)
  refine ⟨by decide, h.1, h.2 [[1, 2], [3, 4]] ?_⟩
  have he : buildRadialBinsBins 2 0 c6Mask c6RMap 4 [⟨0, 0, 3, 3⟩] =
      [[1, 2], [3, 4]] := by
    with_unfolding_all rfl
  rw [he]
  exact List.Forall₂.cons ⟨by decide, by decide⟩
    (List.Forall₂.cons ⟨by decide, by decide⟩ List.Forall₂.nil)

/-- Counterexample to claim C6 as stated: with a single good interior
pixel and `min_values_per_bin = 2`, the sweep ends with one (non-sentinel)
bin holding a single contributor — the still-open last bin need not meet
the minima. -/
theorem C6_last_bin_below_minimum :
    buildRadialBinsBins 2 0 (List.replicate 9 0) (List.replicate 9 1) 3
      [⟨0, 0, 2, 2⟩] = [[1]] ∧
    ∃ b ∈ buildRadialBinsBins 2 0 (List.replicate 9 0) (List.replicate 9 1) 3
      [⟨0, 0, 2, 2⟩], ¬ 2 ≤ b.length := by
  have h : buildRadialBinsBins 2 0 (List.replicate 9 0) (List.replicate 9 1) 3
      [⟨0, 0, 2, 2⟩] = [[1]] := by
    with_unfolding_all rfl
  refine ⟨h, [1], ?_, by decide⟩
  rw [h]
  simp

/-- Setting one array entry either leaves a cell unchanged or stores the
written value there. -/
theorem qget_set_or (l : List ℚ) (j i : ℕ) (v : ℚ) :
    qget (l.set j v) i = qget l i ∨ qget (l.set j v) i = v := by
  by_cases he : i = j
  · subst he
    by_cases hl : i < l.length
    · exact Or.inr (qget_set_eq v hl)
    · left
      rw [List.set_eq_of_length_le (le_of_not_lt hl)]
  · exact Or.inl (qget_set_ne v he)

/-- The sentinel-write fold over one index list leaves every cell either
unchanged or holding the sentinel. -/
theorem streakApply_inner_or :
    ∀ (idxs : List ℕ) (d : List ℚ) (i : ℕ),
      qget (idxs.foldl (fun d j => d.set j (-FLT_MAX_Q)) d) i = qget d i ∨
      qget (idxs.foldl (fun d j => d.set j (-FLT_MAX_Q)) d) i = -FLT_MAX_Q := by
  intro idxs
  induction idxs with
  | nil => intro d i; exact Or.inl rfl
  | cons j idxs ih =>
    intro d i
    simp only [List.foldl_cons]
    rcases ih (d.set j (-FLT_MAX_Q)) i with h | h
    · rcases qget_set_or d j i (-FLT_MAX_Q) with h2 | h2
      · exact Or.inl (h.trans h2)
      · exact Or.inr (h.trans h2)
    · exact Or.inr h

/-- The masking fold leaves every cell either unchanged or holding the
sentinel. -/
theorem streakApply_fold_or :
    ∀ (idxsList : List (List ℕ)) (d : List ℚ) (i : ℕ),
      qget (idxsList.foldl (fun d idxs =>
        idxs.foldl (fun d j => d.set j (-FLT_MAX_Q)) d) d) i = qget d i ∨
      qget (idxsList.foldl (fun d idxs =>
        idxs.foldl (fun d j => d.set j (-FLT_MAX_Q)) d) d) i = -FLT_MAX_Q := by
  intro idxsList
  induction idxsList with
  | nil => intro d i; exact Or.inl rfl
  | cons idxs rest ih =>
    intro d i
    simp only [List.foldl_cons]
    rcases ih (idxs.foldl (fun d j => d.set j (-FLT_MAX_Q)) d) i with h | h
    · rcases streakApply_inner_or idxs d i with h2 | h2
      · exact Or.inl (h.trans h2)
      · exact Or.inr (h.trans h2)
    · exact Or.inr h

/-- The masking phase leaves every cell either unchanged or holding the
sentinel. -/
theorem streakApply_or (idxsList : List (List ℕ)) (d : List ℚ) (i : ℕ) :
      qget (streakFinderApply idxsList d) i = qget d i ∨
      qget (streakFinderApply idxsList d) i = -FLT_MAX_Q := by
  unfold streakFinderApply
  exact streakApply_fold_or idxsList d i

/-- A cell listed in no index list is untouched by the masking phase. -/
theorem streakApply_not_mem :
    ∀ (idxsList : List (List ℕ)) (d : List ℚ) (i : ℕ),
      (∀ idxs ∈ idxsList, i ∉ idxs) →
      qget (streakFinderApply idxsList d) i = qget d i := by
  have inner : ∀ (idxs : List ℕ) (d : List ℚ) (i : ℕ), i ∉ idxs →
      qget (idxs.foldl (fun d j => d.set j (-FLT_MAX_Q)) d) i = qget d i := by
    intro idxs
    induction idxs with
    | nil => intro d i _; rfl
    | cons j idxs ih =>
      intro d i hni
      simp only [List.foldl_cons]
      have hij : i ≠ j := fun h => hni (by simp [h])
      rw [ih (d.set j (-FLT_MAX_Q)) i (fun h => hni (by simp [h])),
        qget_set_ne _ hij]
  intro idxsList
  induction idxsList with
  | nil => intro d i _; rfl
  | cons idxs rest ih =>
    intro d i hni
    unfold streakFinderApply
    simp only [List.foldl_cons]
    have h1 := ih (idxs.foldl (fun d j => d.set j (-FLT_MAX_Q)) d) i
      (fun l hl => hni l (by simp [hl]))
    unfold streakFinderApply at h1
    rw [h1]
    exact inner idxs d i (hni idxs (by simp))

/-- Claim C10 (confirmed): `mask_streaks` modifies the data only by
writing the sentinel.  Every pixel is either unchanged or `-FLT_MAX`; a
changed pixel lies in the `pixelsToMaskIndices` head segment (of length
`numberOfPixelsToMaskForStreakLength[L]`) of some seed whose radial filter
value exceeded the threshold; and a pixel already holding `-FLT_MAX` still
holds it afterwards. -/
theorem C10_mask_streaks_writes_only_sentinel (sqrtQ : ℚ → ℚ) (ac : StreakAC)
    (pc : StreakPC) (pixNx fuel : ℕ) (data : List ℚ) (i : ℕ) :
    (qget (streakFinder sqrtQ ac pc pixNx fuel data) i = qget data i ∨
      qget (streakFinder sqrtQ ac pc pixNx fuel data) i = -FLT_MAX_Q) ∧
    (qget (streakFinder sqrtQ ac pc pixNx fuel data) i ≠ qget data i →
      ∃ n ∈ List.range ac.pixelsToCheck.length,
        computeStreakThreshold sqrtQ data pixNx pc.radialFilterContributors ac <
          seedFilterValue ac pc pixNx data n ∧
        i ∈ seedMaskIdxs sqrtQ ac pc pixNx fuel data n) ∧
    (qget data i = -FLT_MAX_Q →
      qget (streakFinder sqrtQ ac pc pixNx fuel data) i = -FLT_MAX_Q) := by
  have h1 : qget (streakFinder sqrtQ ac pc pixNx fuel data) i = qget data i ∨
      qget (streakFinder sqrtQ ac pc pixNx fuel data) i = -FLT_MAX_Q :=
    streakApply_or (streakFinderSelect sqrtQ ac pc pixNx fuel data) data i
  refine ⟨h1, ?_, ?_⟩
  · intro hch
    by_contra hno
    push_neg at hno
    apply hch
    show qget (streakFinderApply (streakFinderSelect sqrtQ ac pc pixNx fuel data)
      data) i = qget data i
    apply streakApply_not_mem
    intro idxs hmem
    obtain ⟨n, hn, hsome⟩ := List.mem_filterMap.mp hmem
    by_cases hacc : computeStreakThreshold sqrtQ data pixNx
        pc.radialFilterContributors ac < seedFilterValue ac pc pixNx data n
    · rw [if_pos hacc] at hsome
      have := Option.some.inj hsome
      subst this
      exact hno n hn hacc
    · rw [if_neg hacc] at hsome
      cases hsome
  · intro hsent
    rcases h1 with h | h
    · rw [h, hsent]
    · exact h

set_option maxHeartbeats 2000000 in
set_option maxRecDepth 8000 in
/-- Witness for C10 on the one-seed scenario: pixel 0 satisfies the
frame disjunction, the changed pixel 4 is traced to the accepted seed 0,
and the pre-masked pixel 5 keeps the sentinel. -/
theorem C10_mask_streaks_witness :
    (qget (streakFinder (fun q => q) c10AC c10PC 3 9 c10Data) 0 =
        qget c10Data 0 ∨
      qget (streakFinder (fun q => q) c10AC c10PC 3 9 c10Data) 0 = -FLT_MAX_Q) ∧
    (∃ n ∈ List.range c10AC.pixelsToCheck.length,
      computeStreakThreshold (fun q => q) c10Data 3
          c10PC.radialFilterContributors c10AC <
        seedFilterValue c10AC c10PC 3 c10Data n ∧
      4 ∈ seedMaskIdxs (fun q => q) c10AC c10PC 3 9 c10Data n) ∧
    qget (streakFinder (fun q => q) c10AC c10PC 3 9 c10Data) 5 = -FLT_MAX_Q := by
  have h0 := C10_mask_streaks_writes_only_sentinel (fun q => q) c10AC c10PC 3 9 c10Data 0
  have h4 := C10_mask_streaks_writes_only_sentinel (fun q => q) c10AC c10PC 3 9 c10Data 4
  have h5 := C10_mask_streaks_writes_only_sentinel (fun q => q) c10AC c10PC 3 9 c10Data 5
  have e1 : qget (streakFinder (fun q => q) c10AC c10PC 3 9 c10Data) 4 = -FLT_MAX_Q := by
    with_unfolding_all rfl
  have e2 : qget c10Data 4 = 0 := by with_unfolding_all rfl
  have e3 : qget c10Data 5 = -FLT_MAX_Q := by with_unfolding_all rfl
  refine ⟨h0.1, h4.2.1 ?_, h5.2.2 e3⟩
  rw [e1, e2]
  intro hcontra
  have hz : -(2 ^ 128 - 2 ^ 104 : ℚ) = 0 := hcontra
  norm_num at hz

end OM
